import Mathlib

/-!
# Verification of the `graphjoiner` core engine

A shallow embedding in Lean 4 of the core query-planning engine of the
`graphjoiner` Python library (`graphjoiner/__init__.py`, `graphjoiner/requests.py`
and `graphjoiner/util.py`), together with theorems settling the specification
claims about it.

Modelling conventions:

* Python scalar column values (the things returned by a `fetch_immediates`
  collaborator, one per requested column) are modelled by the flat type `S`
  (`None`, `bool`, `int`, `str`).
* General Python values (row dictionaries, attached relationship values,
  lists) are modelled by the recursive type `V`.
* Python dictionaries are modelled as association lists with
  last-write-wins lookup (`dget`), which is how a Python `dict` behaves
  under repeated assignment.
* Python `sorted` (a stable sort by a key function) is modelled by a stable
  insertion sort; Python's tuple `<` comparison is modelled by a total
  lexicographic comparator on `List S` (Python's comparison is undefined
  across value types, where it raises `TypeError`; the model totalises it
  with a constructor rank, which no claim exercises).
* Exceptions are modelled with `Except Err`: `Err.graphqlError` models
  `graphql.GraphQLError` (the only class caught by `_execute`),
  `Err.exception` models any other Python exception (`Exception`,
  `KeyError`, `AttributeError`, ...), and `Err.outOfFuel` is the fuel bound
  of the recursive fetch (the Python recursion is bounded by the finite
  request tree; theorems about a run are stated for runs that complete).
-/

namespace GraphJoiner

/-- Scalar column values: the values a `fetch_immediates` collaborator puts in
row cells, and the values join-key tuples are made of. -/
inductive S where
  | null : S
  | b (x : Bool) : S
  | i (x : Int) : S
  | s (x : String) : S
  deriving DecidableEq, Repr

/-- General values: scalars, lists, and dictionaries (Python objects as seen
by the engine: row cells, attached relationship values, result objects). -/
inductive V where
  | prim (x : S) : V
  | vlist (xs : List V) : V
  | vobj (fields : List (String × V)) : V
  deriving Repr

/-- Errors: `graphqlError` models `graphql.GraphQLError`, `exception` models
any other Python exception, `outOfFuel` is the explicit recursion bound. -/
inductive Err where
  | graphqlError (msg : String) : Err
  | exception (msg : String) : Err
  | outOfFuel : Err
  deriving DecidableEq, Repr

/-! ## A lawful comparator layer

`sorted(results, key=...)` in `RelationshipResults.__init__` compares join-key
tuples with Python's `<`.  We model this with a three-way comparator: a generic
comparator `cmpo` over any linear order, lifted to `S` and then
lexicographically to `List S`. -/

/-- Three-way comparison from a linear order. -/
def cmpo {β : Type} [LinearOrder β] (x y : β) : Ordering :=
  if x < y then .lt else if x = y then .eq else .gt

theorem cmpo_lt_iff {β : Type} [LinearOrder β] (x y : β) :
    cmpo x y = .lt ↔ x < y := by
  unfold cmpo
  split_ifs with h1 h2 <;> simp_all

theorem cmpo_eq_iff {β : Type} [LinearOrder β] (x y : β) :
    cmpo x y = .eq ↔ x = y := by
  unfold cmpo
  rcases lt_trichotomy x y with h | h | h
  · simp only [if_pos h]
    simp [ne_of_lt h]
  · simp [h]
  · rw [if_neg (not_lt.mpr h.le), if_neg (ne_of_gt h)]
    simp [ne_of_gt h]

theorem cmpo_swap {β : Type} [LinearOrder β] (x y : β) :
    (cmpo x y).swap = cmpo y x := by
  unfold cmpo
  rcases lt_trichotomy x y with h | h | h
  · rw [if_pos h, if_neg (not_lt.mpr h.le), if_neg (Ne.symm (ne_of_lt h))]
    rfl
  · simp [h, Ordering.swap]
  · rw [if_neg (not_lt.mpr h.le), if_neg (ne_of_gt h), if_pos h]
    rfl

theorem cmpo_lt_trans {β : Type} [LinearOrder β] {x y z : β}
    (h1 : cmpo x y = .lt) (h2 : cmpo y z = .lt) : cmpo x z = .lt := by
  rw [cmpo_lt_iff] at *
  exact lt_trans h1 h2

/-- Constructor rank used to order scalars of different types.  (CPython 3
raises `TypeError` there; the model totalises the order, which no claim
depends on.) -/
def sRank : S → Nat
  | .null => 0
  | .b _ => 1
  | .i _ => 2
  | .s _ => 3

/-- Three-way comparison of scalar values. -/
def sCmp : S → S → Ordering
  | .null, .null => .eq
  | .b x, .b y => cmpo x y
  | .i x, .i y => cmpo x y
  | .s x, .s y => cmpo x y
  | x, y => cmpo (sRank x) (sRank y)

theorem sCmp_eq_iff (x y : S) : sCmp x y = .eq ↔ x = y := by
  cases x <;> cases y <;> simp +decide [sCmp, sRank, cmpo_eq_iff]

theorem sCmp_swap (x y : S) : (sCmp x y).swap = sCmp y x := by
  cases x <;> cases y <;> simp +decide [sCmp, sRank, cmpo_swap]

theorem sCmp_lt_trans {x y z : S}
    (h1 : sCmp x y = .lt) (h2 : sCmp y z = .lt) : sCmp x z = .lt := by
  cases x <;> cases y <;> cases z <;>
    simp +decide only [sCmp, sRank] at * <;>
    first
      | rfl
      | exact cmpo_lt_trans h1 h2
      | decide
      | exact absurd h1 (by decide)
      | exact absurd h2 (by decide)

/-- Lexicographic three-way comparison of join-key tuples, modelling Python's
tuple comparison. -/
def listCmp : List S → List S → Ordering
  | [], [] => .eq
  | [], _ :: _ => .lt
  | _ :: _, [] => .gt
  | x :: xs, y :: ys =>
    match sCmp x y with
    | .eq => listCmp xs ys
    | o => o

theorem listCmp_eq_iff (xs ys : List S) : listCmp xs ys = .eq ↔ xs = ys := by
  induction xs generalizing ys with
  | nil => cases ys <;> simp [listCmp]
  | cons x xs ih =>
    cases ys with
    | nil => simp [listCmp]
    | cons y ys =>
      simp only [listCmp]
      rcases h : sCmp x y with _ | _ | _
      · simp only [List.cons.injEq]
        constructor
        · intro hc; simp at hc
        · rintro ⟨h1, _⟩
          rw [h1] at h
          rw [(sCmp_eq_iff y y).mpr rfl] at h
          simp at h
      · have := (sCmp_eq_iff x y).mp h
        subst this
        simp [ih]
      · simp only [List.cons.injEq]
        constructor
        · intro hc; simp at hc
        · rintro ⟨h1, _⟩
          rw [h1] at h
          rw [(sCmp_eq_iff y y).mpr rfl] at h
          simp at h

theorem listCmp_swap (xs ys : List S) : (listCmp xs ys).swap = listCmp ys xs := by
  induction xs generalizing ys with
  | nil => cases ys <;> simp [listCmp, Ordering.swap]
  | cons x xs ih =>
    cases ys with
    | nil => simp [listCmp, Ordering.swap]
    | cons y ys =>
      simp only [listCmp]
      rcases h : sCmp x y with _ | _ | _
      · have : sCmp y x = .gt := by
          have := sCmp_swap x y
          rw [h] at this
          simpa [Ordering.swap] using this.symm
        simp [this, Ordering.swap]
      · have heq := (sCmp_eq_iff x y).mp h
        subst heq
        rw [(sCmp_eq_iff x x).mpr rfl]
        exact ih ys
      · have : sCmp y x = .lt := by
          have := sCmp_swap x y
          rw [h] at this
          simpa [Ordering.swap] using this.symm
        simp [this, Ordering.swap]

theorem listCmp_lt_trans {xs ys zs : List S}
    (h1 : listCmp xs ys = .lt) (h2 : listCmp ys zs = .lt) :
    listCmp xs zs = .lt := by
  induction xs generalizing ys zs with
  | nil =>
    cases ys with
    | nil => exact absurd h1 (by simp [listCmp])
    | cons y ys =>
      cases zs with
      | nil => exact absurd h2 (by simp [listCmp])
      | cons z zs => simp [listCmp]
  | cons x xs ih =>
    cases ys with
    | nil => exact absurd h1 (by simp [listCmp])
    | cons y ys =>
      cases zs with
      | nil => exact absurd h2 (by simp [listCmp])
      | cons z zs =>
        simp only [listCmp] at *
        rcases hxy : sCmp x y with _ | _ | _ <;> rw [hxy] at h1 <;>
          rcases hyz : sCmp y z with _ | _ | _ <;> rw [hyz] at h2
        · -- lt, lt
          rw [sCmp_lt_trans hxy hyz]
        · -- lt, eq
          have := (sCmp_eq_iff y z).mp hyz; subst this
          rw [hxy]
        · exact absurd h2 (by simp)
        · -- eq, lt
          have := (sCmp_eq_iff x y).mp hxy; subst this
          rw [hyz]
        · -- eq, eq
          have := (sCmp_eq_iff x y).mp hxy; subst this
          have := (sCmp_eq_iff x z).mp hyz; subst this
          rw [(sCmp_eq_iff x x).mpr rfl]
          exact ih h1 h2
        · exact absurd h2 (by simp)
        · exact absurd h1 (by simp)
        · exact absurd h1 (by simp)
        · exact absurd h1 (by simp)

/-- The boolean `<=` on join-key tuples that drives the stable sort in
`RelationshipResults.__init__` (`sorted(results, key=key_func)`). -/
def tupleLe (xs ys : List S) : Bool :=
  match listCmp xs ys with
  | .gt => false
  | _ => true

theorem tupleLe_refl (xs : List S) : tupleLe xs xs = true := by
  simp [tupleLe, (listCmp_eq_iff xs xs).mpr rfl]

theorem tupleLe_total (xs ys : List S) :
    tupleLe xs ys = true ∨ tupleLe ys xs = true := by
  unfold tupleLe
  rcases h : listCmp xs ys with _ | _ | _
  · left; rfl
  · left; rfl
  · right
    have := listCmp_swap xs ys
    rw [h] at this
    rw [← this]
    simp [Ordering.swap]

theorem tupleLe_antisymm {xs ys : List S}
    (h1 : tupleLe xs ys = true) (h2 : tupleLe ys xs = true) : xs = ys := by
  unfold tupleLe at h1 h2
  rcases h : listCmp xs ys with _ | _ | _
  · have := listCmp_swap xs ys
    rw [h] at this
    simp [Ordering.swap] at this
    rw [← this] at h2
    simp at h2
  · exact (listCmp_eq_iff xs ys).mp h
  · rw [h] at h1; simp at h1

theorem tupleLe_trans {xs ys zs : List S}
    (h1 : tupleLe xs ys = true) (h2 : tupleLe ys zs = true) :
    tupleLe xs zs = true := by
  unfold tupleLe at *
  rcases hxy : listCmp xs ys with _ | _ | _ <;> rw [hxy] at h1
  · rcases hyz : listCmp ys zs with _ | _ | _ <;> rw [hyz] at h2
    · rw [listCmp_lt_trans hxy hyz]
    · have := (listCmp_eq_iff ys zs).mp hyz; subst this
      rw [hxy]
    · simp at h2
  · have := (listCmp_eq_iff xs ys).mp hxy; subst this
    exact h2
  · simp at h1

/-! ## Python dictionaries

Association lists with last-write-wins lookup (`dict` assignment overwrites). -/

/-- A Python `dict` used as a row / result object. -/
abbrev Dict := List (String × V)

/-- `d[k]` as an `Option`: last binding for `k` wins, as in a Python `dict`
built by repeated assignment. -/
def dget (l : Dict) (k : String) : Option V :=
  l.foldl (fun acc p => if p.1 = k then some p.2 else acc) none

/-- `d[k]` where the key is known to be present (which is the case at every
use site in the engine: the fetch unions in every key it later reads).
A missing key would be a `KeyError` in Python; the default is never hit. -/
def dgetD (l : Dict) (k : String) : V :=
  (dget l k).getD (V.prim S.null)

/-- Read a scalar cell of a row dictionary.  Join-key columns are synthetic
immediate selections, so the cells read for join tuples are scalar. -/
def asScalar : V → S
  | .prim x => x
  | _ => S.null

/-! ## `Result` (graphjoiner/__init__.py lines 94-97) -/

/-- `Result(value, join_values)`: one fetched row's assembled value together
with the tuple of its values at the caller-supplied join selections. -/
structure Result where
  value : V
  join_values : List S

/-! ## Stable sort and adjacent grouping

`RelationshipResults.__init__` computes
`dict((key, [r.value for r in rs]) for key, rs in groupby(sorted(results, key=kf), key=kf))`.
`sorted` is Python's stable sort, modelled by a stable insertion sort;
`groupby` groups maximal runs of adjacent elements with equal keys. -/

/-- Stable insert for the stable sort: the new element goes before the first
existing element whose key is `>=` its own (so, before equal keys, preserving
the original order of the earlier elements, which come out first). -/
def insortBy {α : Type} (le : List S → List S → Bool) (key : α → List S) (x : α) :
    List α → List α
  | [] => [x]
  | y :: ys => if le (key x) (key y) then x :: y :: ys else y :: insortBy le key x ys

/-- Stable sort by key, modelling `sorted(l, key=key)`. -/
def sortBy {α : Type} (le : List S → List S → Bool) (key : α → List S) :
    List α → List α
  | [] => []
  | x :: xs => insortBy le key x (sortBy le key xs)

/-- `itertools.groupby(l, key=key)`: the maximal runs of adjacent elements
sharing a key, each tagged with that key. -/
def chunkBy {α : Type} (key : α → List S) : List α → List (List S × List α)
  | [] => []
  | x :: xs =>
    match chunkBy key xs with
    | [] => [(key x, [x])]
    | (k, g) :: rest =>
      if key x = k then (k, x :: g) :: rest else (key x, [x]) :: (k, g) :: rest

/-- Lookup in the `dict` built from a `(key, value)` pair sequence:
last write wins, absent key gives `none` (`dict.get`). -/
def groupsGet {β : Type} (l : List (List S × β)) (k : List S) : Option β :=
  l.foldl (fun acc p => if p.1 = k then some p.2 else acc) none

/-! ## `RelationshipResults` (graphjoiner/__init__.py lines 227-241) -/

/-- The state of a `RelationshipResults` object: the grouped-by-join-key
dictionary `_results`, the cardinality policy `_process_results`, and the
parent-side synthetic join keys `_parent_join_keys`. -/
structure RelationshipResults where
  results : List (List S × List V)
  process_results : List V → Except Err V
  parent_join_keys : List String

/-- `RelationshipResults.__init__`: group the fetched child `Result`s by
`join_values` (sort by the key, then group adjacent equal keys) and store the
value lists in a dictionary keyed by join tuple. -/
def mkRelationshipResults (results : List Result)
    (process_results : List V → Except Err V)
    (parent_join_keys : List String) : RelationshipResults :=
  ⟨(chunkBy Result.join_values (sortBy tupleLe Result.join_values results)).map
      (fun c => (c.1, c.2.map Result.value)),
    process_results, parent_join_keys⟩

/-- `RelationshipResults._parent_join_values`: the parent row's values at the
parent-side synthetic join columns, in join-specification order. -/
def RelationshipResults.parent_join_values (rr : RelationshipResults)
    (parent : Dict) : List S :=
  rr.parent_join_keys.map (fun k => asScalar (dgetD parent k))

/-- `RelationshipResults.get`: the policy applied to the group stored under
the parent's join tuple, defaulting to the empty list
(`self._results.get(self._parent_join_values(key), [])`). -/
def RelationshipResults.get (rr : RelationshipResults) (parent : Dict) :
    Except Err V :=
  rr.process_results ((groupsGet rr.results (rr.parent_join_values parent)).getD [])

/-! ## Correctness of sort-then-group-then-lookup

The content behind claim C2: looking a join tuple up in the grouped
dictionary returns exactly the values of the results carrying that tuple,
in fetch order. -/

section SortGroup

variable {α : Type} (le : List S → List S → Bool) (key : α → List S)

theorem mem_insortBy {z x : α} : ∀ {s : List α},
    z ∈ insortBy le key x s ↔ z = x ∨ z ∈ s := by
  intro s
  induction s with
  | nil => simp [insortBy]
  | cons y ys ih =>
    by_cases hle : le (key x) (key y)
    · rw [insortBy, if_pos hle]
      simp
    · rw [insortBy, if_neg hle]
      simp [ih]
      tauto

theorem filter_insortBy (hrefl : ∀ a, le a a = true) (x : α) (k : List S) :
    ∀ s : List α, (insortBy le key x s).filter (fun a => decide (key a = k)) =
      if key x = k then x :: s.filter (fun a => decide (key a = k))
      else s.filter (fun a => decide (key a = k)) := by
  intro s
  induction s with
  | nil => by_cases h : key x = k <;> simp [insortBy, h]
  | cons y ys ih =>
    by_cases hle : le (key x) (key y)
    · rw [insortBy, if_pos hle]
      by_cases h : key x = k <;> simp [h]
    · rw [insortBy, if_neg hle]
      by_cases h : key x = k
      · have hy : ¬ key y = k := by
          intro hyk
          rw [h, ← hyk] at hle
          exact hle (hrefl (key y))
        simp [List.filter_cons, hy, ih, h]
      · by_cases hy : key y = k <;> simp [List.filter_cons, ih, h, hy]

theorem filter_sortBy (hrefl : ∀ a, le a a = true) (k : List S) :
    ∀ s : List α, (sortBy le key s).filter (fun a => decide (key a = k)) =
      s.filter (fun a => decide (key a = k)) := by
  intro s
  induction s with
  | nil => rfl
  | cons x xs ih =>
    rw [sortBy, filter_insortBy le key hrefl x k]
    by_cases h : key x = k <;> simp [h, ih]

theorem pairwise_insortBy
    (htot : ∀ a b, le a b = true ∨ le b a = true)
    (htrans : ∀ {a b c}, le a b = true → le b c = true → le a c = true)
    (x : α) :
    ∀ {s : List α}, s.Pairwise (fun a b => le (key a) (key b) = true) →
      (insortBy le key x s).Pairwise (fun a b => le (key a) (key b) = true) := by
  intro s
  induction s with
  | nil => simp [insortBy]
  | cons y ys ih =>
    intro hp
    rcases List.pairwise_cons.mp hp with ⟨hy, hys⟩
    by_cases hle : le (key x) (key y)
    · rw [insortBy, if_pos hle]
      refine List.pairwise_cons.mpr ⟨?_, hp⟩
      intro z hz
      rcases List.mem_cons.mp hz with rfl | hz
      · exact hle
      · exact htrans hle (hy z hz)
    · rw [insortBy, if_neg hle]
      refine List.pairwise_cons.mpr ⟨?_, ih hys⟩
      intro z hz
      rcases (mem_insortBy le key).mp hz with rfl | hz
      · rcases htot (key y) (key z) with h | h
        · exact h
        · exact absurd h hle
      · exact hy z hz

theorem pairwise_sortBy
    (htot : ∀ a b, le a b = true ∨ le b a = true)
    (htrans : ∀ {a b c}, le a b = true → le b c = true → le a c = true) :
    ∀ s : List α,
      (sortBy le key s).Pairwise (fun a b => le (key a) (key b) = true) := by
  intro s
  induction s with
  | nil => simp [sortBy]
  | cons x xs ih => exact pairwise_insortBy le key htot htrans x ih

theorem chunkBy_head (x : α) (xs : List α) :
    ∃ g rest, chunkBy key (x :: xs) = (key x, g) :: rest := by
  rw [chunkBy]
  rcases h : chunkBy key xs with _ | ⟨⟨k, g⟩, rest⟩
  · exact ⟨[x], [], rfl⟩
  · by_cases hk : key x = k
    · subst hk
      exact ⟨x :: g, rest, by simp⟩
    · exact ⟨[x], (k, g) :: rest, by simp [hk]⟩

theorem chunkBy_keys_sublist :
    ∀ s : List α, List.Sublist ((chunkBy key s).map Prod.fst) (s.map key) := by
  intro s
  induction s with
  | nil => simp [chunkBy]
  | cons x xs ih =>
    rw [chunkBy]
    rcases h : chunkBy key xs with _ | ⟨⟨k, g⟩, rest⟩
    · simp
    · rw [h] at ih
      by_cases hk : key x = k
      · subst hk
        simp only [if_pos rfl, List.map_cons]
        simp only [List.map_cons] at ih
        exact List.Sublist.cons _ ih
      · simp only [if_neg hk, List.map_cons]
        exact List.Sublist.cons₂ _ ih

theorem chunkBy_keys_adj_ne :
    ∀ s : List α, ((chunkBy key s).map Prod.fst).Chain' (fun a b => a ≠ b) := by
  intro s
  induction s with
  | nil => simp [chunkBy]
  | cons x xs ih =>
    rw [chunkBy]
    rcases h : chunkBy key xs with _ | ⟨⟨k, g⟩, rest⟩
    · simp
    · rw [h] at ih
      by_cases hk : key x = k
      · subst hk
        simpa using ih
      · simp only [if_neg hk, List.map_cons]
        simp only [List.map_cons] at ih
        exact List.chain'_cons.mpr ⟨hk, ih⟩

theorem nodup_of_pairwise_le_adj_ne
    (hanti : ∀ {a b : List S}, le a b = true → le b a = true → a = b) :
    ∀ l : List (List S), l.Pairwise (fun a b => le a b = true) →
      l.Chain' (fun a b => a ≠ b) → l.Nodup := by
  intro l
  induction l with
  | nil => intro _ _; exact List.nodup_nil
  | cons x xs ih =>
    intro hp hc
    rcases List.pairwise_cons.mp hp with ⟨hx, hxs⟩
    refine List.nodup_cons.mpr ⟨?_, ih hxs hc.tail⟩
    intro hmem
    cases xs with
    | nil => simp at hmem
    | cons y ys =>
      have hxy : x ≠ y := (List.chain'_cons.mp hc).1
      rcases List.mem_cons.mp hmem with rfl | hmemt
      · exact hxy rfl
      · have h1 : le x y = true := hx y (List.mem_cons_self y ys)
        have h2 : le y x = true := (List.pairwise_cons.mp hxs).1 x hmemt
        exact hxy (hanti h1 h2)

theorem groupsGet_foldl {β : Type} (k : List S) :
    ∀ (l : List (List S × β)) (a : Option β),
      l.foldl (fun acc p => if p.1 = k then some p.2 else acc) a =
        match groupsGet l k with
        | some w => some w
        | none => a := by
  intro l
  induction l with
  | nil => intro a; rfl
  | cons p l ih =>
    intro a
    show (l.foldl _ (if p.1 = k then some p.2 else a)) = _
    rw [ih]
    show _ = match (l.foldl _ (if p.1 = k then some p.2 else none) : Option β) with
      | some w => some w
      | none => a
    rw [ih]
    rcases groupsGet l k with _ | w
    · by_cases h : p.1 = k <;> simp [h]
    · rfl

theorem groupsGet_cons {β : Type} (k : List S) (p : List S × β)
    (l : List (List S × β)) :
    groupsGet (p :: l) k =
      match groupsGet l k with
      | some w => some w
      | none => if p.1 = k then some p.2 else none := by
  show (l.foldl _ (if p.1 = k then some p.2 else none)) = _
  rw [groupsGet_foldl]

theorem groupsGet_eq_none {β : Type} (k : List S) :
    ∀ l : List (List S × β), k ∉ l.map Prod.fst → groupsGet l k = none := by
  intro l
  induction l with
  | nil => intro _; rfl
  | cons p l ih =>
    intro h
    simp only [List.map_cons, List.mem_cons] at h
    push_neg at h
    rw [groupsGet_cons, ih h.2]
    simp [Ne.symm h.1]

theorem groupsGet_map_snd {β γ : Type} (f : β → γ) (k : List S) :
    ∀ l : List (List S × β),
      groupsGet (l.map (fun c => (c.1, f c.2))) k = (groupsGet l k).map f := by
  intro l
  induction l with
  | nil => rfl
  | cons p l ih =>
    rw [List.map_cons, groupsGet_cons, groupsGet_cons, ih]
    rcases groupsGet l k with _ | w
    · by_cases h : p.1 = k <;> simp [h]
    · rfl

/-- The crux of correlation correctness: after the stable sort and the
adjacent grouping, looking up a join tuple returns exactly the elements
carrying that tuple, in their original (fetch) order. -/
theorem chunk_lookup
    (hanti : ∀ {a b : List S}, le a b = true → le b a = true → a = b)
    (k : List S) :
    ∀ s : List α, s.Pairwise (fun a b => le (key a) (key b) = true) →
      (groupsGet (chunkBy key s) k).getD [] =
        s.filter (fun a => decide (key a = k)) := by
  intro s
  induction s with
  | nil => intro _; rfl
  | cons x xs ih =>
    intro hp
    rcases List.pairwise_cons.mp hp with ⟨hx, hxs⟩
    have IH := ih hxs
    have hnd : ((chunkBy key xs).map Prod.fst).Nodup := by
      refine nodup_of_pairwise_le_adj_ne le hanti _ ?_ (chunkBy_keys_adj_ne key xs)
      refine List.Pairwise.sublist (chunkBy_keys_sublist key xs) ?_
      exact (List.pairwise_map).mpr hxs
    cases xs with
    | nil =>
      by_cases h : key x = k <;>
        simp [chunkBy, groupsGet, h]
    | cons y ys =>
      obtain ⟨g, rest, hch⟩ := chunkBy_head key y ys
      have hchx : chunkBy key (x :: y :: ys) =
          if key x = key y then (key y, x :: g) :: rest
          else (key x, [x]) :: (key y, g) :: rest := by
        rw [chunkBy, hch]
      rw [hchx]
      rw [hch] at IH hnd
      simp only [List.map_cons, List.nodup_cons] at hnd
      by_cases hk : key x = key y
      · rw [if_pos hk]
        by_cases hke : key y = k
        · -- looking up the (merged) head chunk's own key
          have hrest : groupsGet rest k = none := by
            apply groupsGet_eq_none
            rw [← hke]
            exact hnd.1
          have hg : g = List.filter (fun a => decide (key a = k)) (y :: ys) := by
            rw [groupsGet_cons, hrest] at IH
            simpa [hke] using IH
          have hfx : List.filter (fun a => decide (key a = k)) (x :: y :: ys) =
              x :: List.filter (fun a => decide (key a = k)) (y :: ys) := by
            rw [List.filter_cons, if_pos (by simp [hk, hke])]
          rw [groupsGet_cons, hrest, hfx, ← hg]
          simp [hke]
        · -- a different key: the merged head chunk is transparent
          have hfx : List.filter (fun a => decide (key a = k)) (x :: y :: ys) =
              List.filter (fun a => decide (key a = k)) (y :: ys) := by
            rw [List.filter_cons, if_neg (by simp [hk, hke])]
          rw [groupsGet_cons] at IH ⊢
          rw [hfx]
          rcases hr : groupsGet rest k with _ | w <;> rw [hr] at IH <;>
            simpa [hke] using IH
      · rw [if_neg hk, groupsGet_cons]
        by_cases hxk : key x = k
        · have hnone : ∀ z ∈ y :: ys, ¬ (key z = k) := by
            intro z hz hzk
            rcases List.mem_cons.mp hz with rfl | hz
            · exact hk (hxk.trans hzk.symm)
            · have h1 : le (key x) (key y) = true := hx y (List.mem_cons_self y ys)
              have h2 : le (key y) (key z) = true :=
                (List.pairwise_cons.mp hxs).1 z hz
              rw [hzk, ← hxk] at h2
              exact hk (hanti h1 h2)
          have h1 : groupsGet ((key y, g) :: rest) k = none := by
            apply groupsGet_eq_none
            intro hmem
            have hsub := (chunkBy_keys_sublist key (y :: ys)).subset
            rw [hch] at hsub
            obtain ⟨z, hz, hzk⟩ := List.mem_map.mp (hsub hmem)
            exact hnone z hz hzk
          have hfil : List.filter (fun a => decide (key a = k)) (y :: ys) = [] := by
            rw [List.filter_eq_nil_iff]
            intro z hz
            simpa using hnone z hz
          rw [h1, List.filter_cons, if_pos (by simp [hxk]), hfil]
          simp [hxk]
        · have hfx : List.filter (fun a => decide (key a = k)) (x :: y :: ys) =
              List.filter (fun a => decide (key a = k)) (y :: ys) := by
            rw [List.filter_cons, if_neg (by simp [hxk])]
          rw [hfx]
          rcases hr : groupsGet ((key y, g) :: rest) k with _ | w <;>
            rw [hr] at IH <;> simpa [hxk] using IH

end SortGroup

theorem getD_map_nil {β γ : Type} (f : List β → List γ) (hf : f [] = [])
    (o : Option (List β)) : (o.map f).getD [] = f (o.getD []) := by
  cases o with
  | none => simp [hf]
  | some w => rfl

/-- The grouped dictionary of a `RelationshipResults`, looked up at any join
tuple, holds exactly the values of the results carrying that tuple, in fetch
order (stability of the sort), and the empty list for an unknown tuple. -/
theorem mkRelationshipResults_lookup (results : List Result)
    (process_results : List V → Except Err V) (parent_join_keys : List String)
    (pj : List S) :
    (groupsGet (mkRelationshipResults results process_results parent_join_keys).results
        pj).getD [] =
      (results.filter (fun r => decide (r.join_values = pj))).map Result.value := by
  show ((groupsGet ((chunkBy Result.join_values
      (sortBy tupleLe Result.join_values results)).map
        (fun c => (c.1, c.2.map Result.value))) pj).getD []) = _
  rw [groupsGet_map_snd]
  rw [getD_map_nil (List.map Result.value) rfl]
  rw [chunk_lookup tupleLe Result.join_values (fun ha hb => tupleLe_antisymm ha hb) pj
      (sortBy tupleLe Result.join_values results)
      (pairwise_sortBy tupleLe Result.join_values tupleLe_total
        (fun ha hb => tupleLe_trans ha hb) results)]
  rw [filter_sortBy tupleLe Result.join_values tupleLe_refl pj results]

/-! ## Cardinality policies (graphjoiner/__init__.py lines 244-304) -/

/-- `_single` (lines 254-258): exactly one value, else
`GraphQLError("Expected 1 value but got N")`. -/
def _single (values : List V) : Except Err V :=
  if values.length = 1 then .ok (values.getD 0 (V.prim S.null))
  else .error (.graphqlError ("Expected 1 value but got " ++ toString values.length))

/-- `_single_or_none` (lines 271-277): `None` on zero, the sole value on one,
`GraphQLError` on more. -/
def _single_or_none (values : List V) : Except Err V :=
  if values.length = 0 then .ok (V.prim S.null)
  else if values.length > 1 then
    .error (.graphqlError ("Expected up to 1 value but got " ++ toString values.length))
  else .ok (values.getD 0 (V.prim S.null))

/-- `_first_or_none` (lines 290-294): `None` on zero, else the first value. -/
def _first_or_none (values : List V) : Except Err V :=
  if values.length = 0 then .ok (V.prim S.null)
  else .ok (values.getD 0 (V.prim S.null))

/-- `many`'s `process_results` (line 301) is `lambda x: x`: the group is
returned unchanged, as a list value. -/
def many_process_results (values : List V) : Except Err V :=
  .ok (.vlist values)

/-- `RelationshipResults.get` on a freshly grouped result set is the policy
applied to exactly the filter of the fetched results by the parent's join
tuple, in fetch order. -/
theorem rel_get_eq_filter (results : List Result)
    (proc : List V → Except Err V) (pkeys : List String) (parent : Dict) :
    (mkRelationshipResults results proc pkeys).get parent =
      proc ((results.filter (fun r => decide (r.join_values =
          pkeys.map (fun k => asScalar (dgetD parent k))))).map Result.value) := by
  show proc ((groupsGet (mkRelationshipResults results proc pkeys).results
      ((mkRelationshipResults results proc pkeys).parent_join_values parent)).getD []) = _
  rw [mkRelationshipResults_lookup results proc pkeys
      ((mkRelationshipResults results proc pkeys).parent_join_values parent)]
  rfl

/-- C2: for every parent row and resolved relationship, the value attached
for the parent is the cardinality policy applied to exactly the values of the
child results whose join tuple structurally equals the parent's join tuple
(computed from the parent-side synthetic join columns, in join-specification
order), in fetch order; a parent whose tuple matches no group gets the policy
applied to the empty list; no child with a different tuple is included. -/
theorem relationship_correlation (results : List Result)
    (proc : List V → Except Err V) (pkeys : List String) (parent : Dict) :
    (mkRelationshipResults results proc pkeys).get parent =
      proc ((results.filter (fun r => decide (r.join_values =
          pkeys.map (fun k => asScalar (dgetD parent k))))).map Result.value) :=
  rel_get_eq_filter results proc pkeys parent

/-- C3: the cardinality laws of the four policies as pure functions:
`_single` returns the sole element on length 1 and raises
"Expected 1 value but got N" otherwise; `_single_or_none` returns null on 0,
the sole element on 1 and raises on more; `_first_or_none` returns null on 0
and else the first element in fetch order, never erroring; `many` returns the
full list unchanged (possibly empty) and never null. -/
theorem cardinality_policies (v : V) :
    (_single [v] = .ok v) ∧
    (∀ vs : List V, vs.length ≠ 1 →
      _single vs =
        .error (.graphqlError ("Expected 1 value but got " ++ toString vs.length))) ∧
    (_single_or_none [] = .ok (V.prim S.null)) ∧
    (_single_or_none [v] = .ok v) ∧
    (∀ vs : List V, vs.length > 1 →
      _single_or_none vs =
        .error (.graphqlError ("Expected up to 1 value but got " ++ toString vs.length))) ∧
    (_first_or_none [] = .ok (V.prim S.null)) ∧
    (∀ vs : List V, _first_or_none (v :: vs) = .ok v) ∧
    (∀ vs : List V, many_process_results vs = .ok (.vlist vs) ∧
      many_process_results vs ≠ .ok (V.prim S.null)) := by
  refine ⟨rfl, ?_, rfl, rfl, ?_, rfl, ?_, ?_⟩
  · intro vs h
    rw [_single, if_neg h]
  · intro vs h
    rw [_single_or_none, if_neg (by omega), if_pos h]
  · intro vs
    rfl
  · intro vs
    exact ⟨rfl, by simp [many_process_results]⟩

/-- Witness for C3 at concrete inputs: `_single` on one and on zero values,
`_single_or_none` on two values, `_first_or_none` on two values, `many` on
the empty list. -/
theorem cardinality_policies_witness :
    _single [V.prim (S.i 3)] = .ok (V.prim (S.i 3)) ∧
    _single [] = .error (.graphqlError "Expected 1 value but got 0") ∧
    _single_or_none [V.prim (S.i 1), V.prim (S.i 2)] =
      .error (.graphqlError "Expected up to 1 value but got 2") ∧
    _first_or_none [V.prim (S.i 1), V.prim (S.i 2)] = .ok (V.prim (S.i 1)) ∧
    many_process_results [] = .ok (.vlist []) := by
  refine ⟨(cardinality_policies (V.prim (S.i 3))).1, ?_, ?_, ?_, ?_⟩
  · exact (cardinality_policies (V.prim (S.i 3))).2.1 [] (by decide)
  · exact (cardinality_policies (V.prim (S.i 1))).2.2.2.2.1
      [V.prim (S.i 1), V.prim (S.i 2)] (by decide)
  · exact (cardinality_policies (V.prim (S.i 1))).2.2.2.2.2.2.1 [V.prim (S.i 2)]
  · exact ((cardinality_policies (V.prim (S.i 1))).2.2.2.2.2.2.2 []).1

/-- C4 (code bug): evaluating the code at the failing input.  A `single`
relationship whose parent has zero matching child rows does not yield null:
`RelationshipResults.get` applies `_single` to the empty group, which raises
`GraphQLError("Expected 1 value but got 0")`, aborting the execution — while
the repository's own test
(`tests/execution_test_cases.py::test_single_entity_is_null_if_not_found`)
expects the field to be null in a successful result. -/
theorem single_zero_rows_raises :
    (mkRelationshipResults [] _single ["_graphjoiner_joinToChildrenKey_id"]).get [] =
      .error (.graphqlError "Expected 1 value but got 0") := rfl

/-! ## The GraphQL selection AST consumed by `requests.py`

A directive occurrence carries its name and the value of its `if` argument
after argument/variable coercion (`get_argument_values(...).get("if")`).
A fragment spread is modelled with the body of the (already looked-up)
fragment definition inlined, since `_add_fields` immediately resolves the
spread through the `fragments` mapping. -/

structure Directive where
  name : String
  ifArg : Option Bool
  deriving DecidableEq, Repr

mutual
inductive AstSelection where
  | fld (node : FieldNode) : AstSelection
  | fragmentSpread (directives : List Directive) (fragment : List AstSelection) : AstSelection
  | inlineFragment (directives : List Directive) (selections : List AstSelection) : AstSelection
inductive FieldNode where
  | mk (name : String) (aliasName : Option String) (directives : List Directive)
      (selectionSet : Option (List AstSelection)) : FieldNode
end

def FieldNode.name : FieldNode → String
  | .mk n _ _ _ => n

def FieldNode.aliasName : FieldNode → Option String
  | .mk _ a _ _ => a

def FieldNode.directives : FieldNode → List Directive
  | .mk _ _ d _ => d

def FieldNode.selectionSet : FieldNode → Option (List AstSelection)
  | .mk _ _ _ s => s

def AstSelection.directives : AstSelection → List Directive
  | .fld node => node.directives
  | .fragmentSpread ds _ => ds
  | .inlineFragment ds _ => ds

/-- `_field_name` (requests.py lines 89-90). -/
def _field_name (node : FieldNode) : String :=
  node.name

/-- `field_key` (requests.py lines 93-97): the alias if present, else the
field name. -/
def field_key (node : FieldNode) : String :=
  match node.aliasName with
  | none => _field_name node
  | some a => a

/-- `_should_include_node` (requests.py lines 143-157): directives are
examined left to right; `@skip(if: True)` and `@include(if: False)` exclude
the node immediately; any other directive name raises a plain `Exception`
("Unknown directive: ..."). -/
def _should_include_node_loop : List Directive → Except Err Bool
  | [] => .ok true
  | d :: ds =>
    if d.name = "skip" then
      if d.ifArg = some true then .ok false else _should_include_node_loop ds
    else if d.name = "include" then
      if d.ifArg = some false then .ok false else _should_include_node_loop ds
    else .error (.exception ("Unknown directive: " ++ d.name))

def _should_include_node (node : AstSelection) : Except Err Bool :=
  _should_include_node_loop node.directives

/-- `_add_fields` (requests.py lines 129-140): walk the selections in order,
dropping excluded nodes, inlining fragment spreads and inline fragments
recursively, and collecting `Field` nodes.  An exception raised while
handling a selection propagates (`Except.bind`). -/
def _add_fields : List AstSelection → Except Err (List FieldNode)
  | [] => .ok []
  | sel :: rest =>
    (_should_include_node sel).bind (fun inc =>
      if inc then
        match sel with
        | .fld node => (_add_fields rest).map (fun tail => node :: tail)
        | .fragmentSpread _ frag =>
          (_add_fields frag).bind (fun sub =>
            (_add_fields rest).map (fun tail => sub ++ tail))
        | .inlineFragment _ sels =>
          (_add_fields sels).bind (fun sub =>
            (_add_fields rest).map (fun tail => sub ++ tail))
      else _add_fields rest)

theorem _add_fields_nil : _add_fields [] = .ok [] := by
  rw [_add_fields.eq_def]

theorem _add_fields_cons (sel : AstSelection) (rest : List AstSelection) :
    _add_fields (sel :: rest) =
      (_should_include_node sel).bind (fun inc =>
        if inc then
          match sel with
          | .fld node => (_add_fields rest).map (fun tail => node :: tail)
          | .fragmentSpread _ frag =>
            (_add_fields frag).bind (fun sub =>
              (_add_fields rest).map (fun tail => sub ++ tail))
          | .inlineFragment _ sels =>
            (_add_fields sels).bind (fun sub =>
              (_add_fields rest).map (fun tail => sub ++ tail))
        else _add_fields rest) := by
  rw [_add_fields.eq_def]

/-- `_collect_fields` (requests.py lines 122-127). -/
def _collect_fields (selections : List AstSelection) : Except Err (List FieldNode) :=
  _add_fields selections

/-! ## `_merge_fields` (requests.py lines 160-175)

The merge folds the collected field nodes into an ordered dictionary keyed by
`field_key`; a repeated key whose new occurrence has a selection set has the
new children appended to the existing node's selection set (which is an
`AttributeError` crash when the existing node has no selection set);
a repeated key without a selection set leaves the existing entry unchanged. -/

/-- First-match association lookup (the keys of the ordered dictionary are
unique by construction, so first match is the dictionary lookup). -/
def afind (l : List (String × FieldNode)) (k : String) : Option FieldNode :=
  match l with
  | [] => none
  | p :: rest => if p.1 = k then some p.2 else afind rest k

/-- In-place update of an ordered dictionary entry (`merged[key] = ...` on an
existing key keeps its position). -/
def aupdate (l : List (String × FieldNode)) (k : String) (v : FieldNode) :
    List (String × FieldNode) :=
  l.map (fun p => if p.1 = k then (k, v) else p)

/-- Append the new children to a field node's selection set
(`merged[key].selection_set.selections += selection.selection_set.selections`). -/
def appendChildren (old : FieldNode) (newSels : List AstSelection) : FieldNode :=
  match old with
  | .mk n a d s => .mk n a d (some (s.getD [] ++ newSels))

/-- The loop body of `_merge_fields`, folding selections into the ordered
dictionary. -/
def _merge_into (merged : List (String × FieldNode)) :
    List FieldNode → Except Err (List (String × FieldNode))
  | [] => .ok merged
  | sel :: rest =>
    match afind merged (field_key sel) with
    | some old =>
      match sel.selectionSet with
      | none => _merge_into merged rest
      | some newSels =>
        match old.selectionSet with
        | none =>
          .error (.exception
            "AttributeError: NoneType object has no attribute selections")
        | some _ =>
          _merge_into (aupdate merged (field_key sel) (appendChildren old newSels)) rest
    | none => _merge_into (merged ++ [(field_key sel, sel)]) rest

/-- `_merge_fields`: fold into the ordered dictionary and take its values in
insertion order. -/
def _merge_fields (selections : List FieldNode) : Except Err (List FieldNode) :=
  match _merge_into [] selections with
  | .error e => .error e
  | .ok merged => .ok (merged.map Prod.snd)

/-! ### Merge correctness lemmas -/

theorem afind_append (l1 l2 : List (String × FieldNode)) (k : String) :
    afind (l1 ++ l2) k =
      match afind l1 k with
      | some v => some v
      | none => afind l2 k := by
  induction l1 with
  | nil => rfl
  | cons p rest ih =>
    by_cases h : p.1 = k <;> simp [afind, h, ih]

theorem afind_aupdate_ne (m : List (String × FieldNode)) {k' k : String}
    (v : FieldNode) (h : k' ≠ k) :
    afind (aupdate m k' v) k = afind m k := by
  induction m with
  | nil => rfl
  | cons p rest ih =>
    by_cases hp : p.1 = k'
    · rw [aupdate, List.map_cons, if_pos hp]
      rw [afind, if_neg h, afind, if_neg (hp ▸ h)]
      exact ih
    · rw [aupdate, List.map_cons, if_neg hp]
      rw [afind, afind]
      rcases hpk : decide (p.1 = k) with _ | _
      · simp only [of_decide_eq_false hpk, if_false]
        exact ih
      · simp only [of_decide_eq_true hpk, if_true]

theorem afind_aupdate_self (m : List (String × FieldNode)) {k : String}
    (v w : FieldNode) (h : afind m k = some w) :
    afind (aupdate m k v) k = some v := by
  induction m with
  | nil => simp [afind] at h
  | cons p rest ih =>
    by_cases hp : p.1 = k
    · rw [aupdate, List.map_cons, if_pos hp, afind, if_pos rfl]
    · rw [afind, if_neg hp] at h
      rw [aupdate, List.map_cons, if_neg hp, afind, if_neg hp]
      exact ih h

theorem field_key_appendChildren (f : FieldNode) (cs : List AstSelection) :
    field_key (appendChildren f cs) = field_key f := by
  cases f with
  | mk n a d s => cases a <;> rfl

theorem aupdate_keys (m : List (String × FieldNode)) (k : String) (v : FieldNode) :
    (aupdate m k v).map Prod.fst = m.map Prod.fst := by
  induction m with
  | nil => rfl
  | cons p rest ih =>
    by_cases hp : p.1 = k <;> simp [aupdate, hp] <;> simpa [aupdate] using ih

theorem afind_none_iff (m : List (String × FieldNode)) (k : String) :
    afind m k = none ↔ k ∉ m.map Prod.fst := by
  induction m with
  | nil => simp [afind]
  | cons p rest ih =>
    by_cases hp : p.1 = k
    · rw [afind, if_pos hp]
      simp only [List.map_cons, List.mem_cons, not_or]
      constructor
      · intro h
        simp at h
      · intro h
        exact (h.1 hp.symm).elim
    · rw [afind, if_neg hp]
      simp only [List.map_cons, List.mem_cons, not_or]
      constructor
      · intro h
        exact ⟨fun hk => hp hk.symm, ih.mp h⟩
      · intro h
        exact ih.mpr h.2

theorem afind_some_key (m : List (String × FieldNode)) (k : String) (w : FieldNode)
    (hok : ∀ p ∈ m, p.1 = field_key p.2) (h : afind m k = some w) :
    k = field_key w := by
  induction m with
  | nil => simp [afind] at h
  | cons p rest ih =>
    by_cases hp : p.1 = k
    · rw [afind, if_pos hp] at h
      have hkp := hok p (List.mem_cons_self p rest)
      rw [← hp, hkp, Option.some.inj h]
    · rw [afind, if_neg hp] at h
      exact ih (fun q hq => hok q (List.mem_cons_of_mem p hq)) h

/-- Under the ordered-dictionary invariants (keys match their nodes' field
keys and are unique), filtering the dictionary's values by a key gives the
dictionary lookup. -/
theorem filter_values (m : List (String × FieldNode)) (k : String)
    (hkeys : ∀ p ∈ m, p.1 = field_key p.2)
    (hnd : (m.map Prod.fst).Nodup) :
    (m.map Prod.snd).filter (fun f => decide (field_key f = k)) =
      match afind m k with
      | some f => [f]
      | none => [] := by
  induction m with
  | nil => rfl
  | cons p rest ih =>
    have hkp := hkeys p (List.mem_cons_self p rest)
    have hkrest : ∀ q ∈ rest, q.1 = field_key q.2 :=
      fun q hq => hkeys q (List.mem_cons_of_mem p hq)
    simp only [List.map_cons, List.nodup_cons] at hnd
    by_cases hp : p.1 = k
    · have hrest_none : afind rest k = none := by
        rw [afind_none_iff]
        rw [← hp]
        exact hnd.1
      have hrest_filter :
          (rest.map Prod.snd).filter (fun f => decide (field_key f = k)) = [] := by
        rw [ih hkrest hnd.2, hrest_none]
      rw [List.map_cons, List.filter_cons,
        if_pos (by simp [← hkp, hp]), afind, if_pos hp, hrest_filter]
    · rw [List.map_cons, List.filter_cons,
        if_neg (by simp [← hkp, hp]), afind, if_neg hp]
      exact ih hkrest hnd.2

/-- Effect of one later occurrence on the stored node: an occurrence without
a selection set leaves it unchanged, one with a selection set appends its
children. -/
def mergeStep (acc o : FieldNode) : FieldNode :=
  match o.selectionSet with
  | none => acc
  | some cs => appendChildren acc cs

/-- Folding the occurrences of one key into the dictionary entry. -/
def specFold (acc : Option FieldNode) (occs : List FieldNode) : Option FieldNode :=
  occs.foldl (fun a o =>
    match a with
    | none => some o
    | some f => some (mergeStep f o)) acc

theorem specFold_nil (acc : Option FieldNode) : specFold acc [] = acc := rfl

theorem specFold_cons_none (o : FieldNode) (occs : List FieldNode) :
    specFold none (o :: occs) = specFold (some o) occs := rfl

theorem specFold_cons_some (f o : FieldNode) (occs : List FieldNode) :
    specFold (some f) (o :: occs) = specFold (some (mergeStep f o)) occs := rfl

theorem specFold_some (f : FieldNode) (occs : List FieldNode) :
    specFold (some f) occs = some (occs.foldl mergeStep f) := by
  induction occs generalizing f with
  | nil => rfl
  | cons o occs ih => exact ih (mergeStep f o)

/-- The dictionary entry for `k` after folding in a selection list is the
spec fold of the entry before over the occurrences of `k`, in order. -/
theorem _merge_into_afind_spec (k : String) :
    ∀ (sels : List FieldNode) (merged m' : List (String × FieldNode)),
      _merge_into merged sels = .ok m' →
      afind m' k =
        specFold (afind merged k)
          (sels.filter (fun f => decide (field_key f = k))) := by
  intro sels
  induction sels with
  | nil =>
    intro merged m' hok
    have : merged = m' := by
      simpa [_merge_into] using hok
    rw [← this, List.filter_nil, specFold_nil]
  | cons sel rest ih =>
    intro merged m' hok
    rw [_merge_into] at hok
    rcases haf : afind merged (field_key sel) with _ | old <;> rw [haf] at hok
    · -- first occurrence of this key: a fresh dictionary entry is appended
      have hok' : _merge_into (merged ++ [(field_key sel, sel)]) rest = .ok m' := hok
      have hafk : afind (merged ++ [(field_key sel, sel)]) k =
          match afind merged k with
          | some v => some v
          | none => afind [(field_key sel, sel)] k :=
        afind_append merged [(field_key sel, sel)] k
      by_cases hks : field_key sel = k
      · have hsingle : afind [(field_key sel, sel)] k = some sel := by
          rw [afind, if_pos hks]
        rw [List.filter_cons, if_pos (by simp [hks])]
        rw [hks] at haf
        rw [haf, specFold_cons_none, ih _ _ hok', hafk, haf, hsingle]
      · have hsingle : afind [(field_key sel, sel)] k = none := by
          rw [afind, if_neg hks]
          rfl
        rw [List.filter_cons, if_neg (by simp [hks])]
        rw [ih _ _ hok', hafk, hsingle]
        rcases hmk : afind merged k with _ | v <;> rfl
    · have hok1 : (match sel.selectionSet with
          | none => _merge_into merged rest
          | some newSels =>
            match old.selectionSet with
            | none => Except.error (Err.exception
                "AttributeError: NoneType object has no attribute selections")
            | some _ =>
              _merge_into (aupdate merged (field_key sel) (appendChildren old newSels))
                rest) = Except.ok m' := hok
      rcases hss : sel.selectionSet with _ | cs <;> rw [hss] at hok1
      · -- repeat occurrence without selection set: entry unchanged
        have hok' : _merge_into merged rest = .ok m' := hok1
        have hms : mergeStep old sel = old := by rw [mergeStep, hss]
        by_cases hks : field_key sel = k
        · rw [List.filter_cons, if_pos (by simp [hks])]
          rw [hks] at haf
          rw [haf, specFold_cons_some, hms, ih _ _ hok', haf]
        · rw [List.filter_cons, if_neg (by simp [hks])]
          exact ih _ _ hok'
      · have hok2 : (match old.selectionSet with
            | none => Except.error (Err.exception
                "AttributeError: NoneType object has no attribute selections")
            | some _ =>
              _merge_into (aupdate merged (field_key sel) (appendChildren old cs))
                rest) = Except.ok m' := hok1
        rcases hos : old.selectionSet with _ | os <;> rw [hos] at hok2
        · -- the AttributeError crash: excluded by the ok hypothesis
          exact absurd hok2 (by simp)
        · -- repeat occurrence with selection set: children appended in place
          have hok' : _merge_into (aupdate merged (field_key sel) (appendChildren old cs))
              rest = .ok m' := hok2
          have hms : mergeStep old sel = appendChildren old cs := by rw [mergeStep, hss]
          by_cases hks : field_key sel = k
          · rw [List.filter_cons, if_pos (by simp [hks])]
            have haf' : afind merged k = some old := by rw [← hks]; exact haf
            rw [haf', specFold_cons_some, hms, ih _ _ hok', hks,
              afind_aupdate_self merged (appendChildren old cs) old haf']
          · rw [List.filter_cons, if_neg (by simp [hks])]
            rw [ih _ _ hok', afind_aupdate_ne merged (appendChildren old cs) hks]

/-- The merge preserves the ordered-dictionary invariants: every stored key
is its node's field key, and keys are unique. -/
theorem _merge_into_invariants :
    ∀ (sels : List FieldNode) (merged m' : List (String × FieldNode)),
      _merge_into merged sels = .ok m' →
      (∀ p ∈ merged, p.1 = field_key p.2) →
      (merged.map Prod.fst).Nodup →
      (∀ p ∈ m', p.1 = field_key p.2) ∧ (m'.map Prod.fst).Nodup := by
  intro sels
  induction sels with
  | nil =>
    intro merged m' hok hko hnd
    have : merged = m' := by simpa [_merge_into] using hok
    exact this ▸ ⟨hko, hnd⟩
  | cons sel rest ih =>
    intro merged m' hok hko hnd
    rw [_merge_into] at hok
    rcases haf : afind merged (field_key sel) with _ | old <;> rw [haf] at hok
    · refine ih _ _ hok ?_ ?_
      · intro p hp
        rcases List.mem_append.mp hp with hp | hp
        · exact hko p hp
        · rw [List.mem_singleton.mp hp]
      · rw [List.map_append, List.nodup_append]
        refine ⟨hnd, List.nodup_singleton _, ?_⟩
        intro a ha hb
        simp only [List.map_cons, List.map_nil, List.mem_singleton] at hb
        rw [hb] at ha
        exact (afind_none_iff merged (field_key sel)).mp haf ha
    · have hok1 : (match sel.selectionSet with
          | none => _merge_into merged rest
          | some newSels =>
            match old.selectionSet with
            | none => Except.error (Err.exception
                "AttributeError: NoneType object has no attribute selections")
            | some _ =>
              _merge_into (aupdate merged (field_key sel) (appendChildren old newSels))
                rest) = Except.ok m' := hok
      rcases hss : sel.selectionSet with _ | cs <;> rw [hss] at hok1
      · exact ih _ _ hok1 hko hnd
      · have hok2 : (match old.selectionSet with
            | none => Except.error (Err.exception
                "AttributeError: NoneType object has no attribute selections")
            | some _ =>
              _merge_into (aupdate merged (field_key sel) (appendChildren old cs))
                rest) = Except.ok m' := hok1
        rcases hos : old.selectionSet with _ | os <;> rw [hos] at hok2
        · simp at hok2
        · refine ih _ _ hok2 ?_ ?_
          · intro p hp
            rw [aupdate] at hp
            obtain ⟨q, hq, hpq⟩ := List.mem_map.mp hp
            by_cases hq1 : q.1 = field_key sel
            · rw [if_pos hq1] at hpq
              rw [← hpq]
              show field_key sel = field_key (appendChildren old cs)
              rw [field_key_appendChildren]
              exact afind_some_key merged (field_key sel) old hko haf
            · rw [if_neg hq1] at hpq
              rw [← hpq]
              exact hko q hq
          · rw [aupdate_keys]
            exact hnd

/-- The values of the merged ordered dictionary, filtered by a key, are the
fold of that key's occurrences: no occurrence for the key gives nothing, and
otherwise the first occurrence with every later occurrence's children
appended in document order. -/
theorem _merge_fields_filter (sels out : List FieldNode) (k : String)
    (hok : _merge_fields sels = .ok out) :
    out.filter (fun f => decide (field_key f = k)) =
      match sels.filter (fun f => decide (field_key f = k)) with
      | [] => []
      | s :: rest => [rest.foldl mergeStep s] := by
  rw [_merge_fields] at hok
  rcases hmi : _merge_into [] sels with e | m <;> rw [hmi] at hok
  · simp at hok
  · have hout : out = m.map Prod.snd := by
      simpa using hok.symm
    obtain ⟨hko, hnd⟩ := _merge_into_invariants sels [] m hmi
      (by intro p hp; simp at hp) (by simp)
    have hspec := _merge_into_afind_spec k sels [] m hmi
    rw [hout, filter_values m k hko hnd, hspec]
    rcases hfil : sels.filter (fun f => decide (field_key f = k)) with _ | ⟨s, rest⟩
    · rfl
    · have hsf : specFold (afind [] k) (s :: rest) = some (rest.foldl mergeStep s) := by
        show specFold none (s :: rest) = _
        rw [specFold_cons_none, specFold_some]
      rw [hsf]

/-- C5 counterexample: two occurrences of the same key where only the later
occurrence has child selections — so "at least one occurrence has child
selections" holds — do not merge into a single selection with concatenated
children: the merge crashes (`AttributeError`, from
`copy(None).selections`), because the code only guards the new occurrence's
selection set, not the existing one's. -/
theorem merge_leaf_then_children_crashes :
    _merge_fields [FieldNode.mk "a" none [] none,
        FieldNode.mk "a" none [] (some [])] =
      .error (.exception
        "AttributeError: NoneType object has no attribute selections") := rfl

/-- C5 (amended): for a selection list with exactly two occurrences of a key,
where the earlier occurrence has child selections, the merge produces exactly
one selection under that key, namely the earlier occurrence with the later
occurrence's children (if any) appended after its own; and a key occurring
exactly once (in particular, a distinct alias of the same underlying field)
comes out of the merge unchanged, resolved independently. -/
theorem field_merging :
    (∀ (l1 l2 l3 : List FieldNode) (s1 s2 : FieldNode) (k : String)
        (out : List FieldNode),
      field_key s1 = k → field_key s2 = k →
      (∀ s ∈ l1, field_key s ≠ k) → (∀ s ∈ l2, field_key s ≠ k) →
      (∀ s ∈ l3, field_key s ≠ k) →
      _merge_fields (l1 ++ s1 :: l2 ++ s2 :: l3) = .ok out →
      out.filter (fun f => decide (field_key f = k)) =
        [match s2.selectionSet with
          | some cs2 => appendChildren s1 cs2
          | none => s1]) ∧
    (∀ (sels out : List FieldNode) (k : String) (s : FieldNode),
      _merge_fields sels = .ok out →
      sels.filter (fun f => decide (field_key f = k)) = [s] →
      out.filter (fun f => decide (field_key f = k)) = [s]) := by
  constructor
  · intro l1 l2 l3 s1 s2 k out hk1 hk2 h1 h2 h3 hok
    have e1 : l1.filter (fun f => decide (field_key f = k)) = [] :=
      List.filter_eq_nil_iff.mpr (fun s hs => by simpa using h1 s hs)
    have e2 : l2.filter (fun f => decide (field_key f = k)) = [] :=
      List.filter_eq_nil_iff.mpr (fun s hs => by simpa using h2 s hs)
    have e3 : l3.filter (fun f => decide (field_key f = k)) = [] :=
      List.filter_eq_nil_iff.mpr (fun s hs => by simpa using h3 s hs)
    have hfil : (l1 ++ s1 :: l2 ++ s2 :: l3).filter
        (fun f => decide (field_key f = k)) = [s1, s2] := by
      simp [List.filter_append, List.filter_cons, hk1, hk2, e1, e2, e3]
    have hmain := _merge_fields_filter (l1 ++ s1 :: l2 ++ s2 :: l3) out k hok
    rw [hfil] at hmain
    have hmain' : out.filter (fun f => decide (field_key f = k)) =
        [mergeStep s1 s2] := hmain
    rcases hss2 : s2.selectionSet with _ | cs2
    · have hms : mergeStep s1 s2 = s1 := by rw [mergeStep, hss2]
      rw [hms] at hmain'
      exact hmain'
    · have hms : mergeStep s1 s2 = appendChildren s1 cs2 := by rw [mergeStep, hss2]
      rw [hms] at hmain'
      exact hmain'
  · intro sels out k s hok hfil
    have hmain := _merge_fields_filter sels out k hok
    rw [hfil] at hmain
    exact hmain

/-- Witness for C5 at concrete inputs: `{b, a { x }, a { y }}` merges into
`{b, a { x y }}` (one selection under key `a`, children concatenated in
document order), and the key `b` occurring once is untouched. -/
theorem field_merging_witness :
    _merge_fields [FieldNode.mk "b" none [] none,
        FieldNode.mk "a" none [] (some [AstSelection.fld (FieldNode.mk "x" none [] none)]),
        FieldNode.mk "a" none [] (some [AstSelection.fld (FieldNode.mk "y" none [] none)])] =
      .ok [FieldNode.mk "b" none [] none,
        FieldNode.mk "a" none [] (some [AstSelection.fld (FieldNode.mk "x" none [] none),
          AstSelection.fld (FieldNode.mk "y" none [] none)])] ∧
    ([FieldNode.mk "b" none [] none,
        FieldNode.mk "a" none [] (some [AstSelection.fld (FieldNode.mk "x" none [] none),
          AstSelection.fld (FieldNode.mk "y" none [] none)])].filter
      (fun f => decide (field_key f = "a"))) =
      [FieldNode.mk "a" none [] (some [AstSelection.fld (FieldNode.mk "x" none [] none),
        AstSelection.fld (FieldNode.mk "y" none [] none)])] ∧
    ([FieldNode.mk "b" none [] none,
        FieldNode.mk "a" none [] (some [AstSelection.fld (FieldNode.mk "x" none [] none),
          AstSelection.fld (FieldNode.mk "y" none [] none)])].filter
      (fun f => decide (field_key f = "b"))) = [FieldNode.mk "b" none [] none] := by
  refine ⟨rfl, ?_, ?_⟩
  · exact field_merging.1 [FieldNode.mk "b" none [] none] [] []
      (FieldNode.mk "a" none [] (some [AstSelection.fld (FieldNode.mk "x" none [] none)]))
      (FieldNode.mk "a" none [] (some [AstSelection.fld (FieldNode.mk "y" none [] none)]))
      "a" _ rfl rfl
      (by intro s hs; rw [List.mem_singleton] at hs; subst hs; decide)
      (by intro s hs; cases hs)
      (by intro s hs; cases hs)
      rfl
  · exact field_merging.2
      [FieldNode.mk "b" none [] none,
        FieldNode.mk "a" none [] (some [AstSelection.fld (FieldNode.mk "x" none [] none)]),
        FieldNode.mk "a" none [] (some [AstSelection.fld (FieldNode.mk "y" none [] none)])]
      [FieldNode.mk "b" none [] none,
        FieldNode.mk "a" none [] (some [AstSelection.fld (FieldNode.mk "x" none [] none),
          AstSelection.fld (FieldNode.mk "y" none [] none)])]
      "b" (FieldNode.mk "b" none [] none) rfl rfl

/-! ## The join engine (graphjoiner/__init__.py)

Entities, fields and relationships.  `Field` is modelled by its payload (the
attribute name the fetch collaborator reads, plus the `internal` kwarg read
by `to_graphql_type`); `JoinType`'s lazily memoized `fields` thunk is
modelled as an association list (the spec's explicit schema-build phase);
queries, contexts and argument values are data (`V`).  The cyclic entity
graph (Author ↔ Book) is lazily unfolded in Python; the model works on its
finite unfoldings, with a fuel bound on the recursive fetch. -/

/-- The payload of a `Field` (graphjoiner/__init__.py lines 114-131). -/
structure FieldF where
  attr : String
  internal : Bool
  deriving DecidableEq, Repr

/-- An immediate selection as seen by a `fetch_immediates` collaborator: its
key and its `Field` payload (`none` when the selection's field descriptor is
not an immediate `Field`). -/
structure ImmSel where
  key : String
  field : Option FieldF
  deriving DecidableEq, Repr

/-- Queries and contexts are opaque collaborator data. -/
abbrev Query := V

abbrev Ctx := V

abbrev Args := List (String × V)

mutual
/-- `Value` subclasses: `JoinType` (name, `fetch_immediates`, fields) and
`ScalarJoinType` (target, extracted field name). -/
inductive Entity where
  | joinType (name : String)
      (fetch_immediates : List ImmSel → Query → Ctx → Except Err (List (List S)))
      (fields : List (String × FieldBase)) : Entity
  | scalarJoinType (target : Entity) (field_name : String) : Entity
/-- A field registry entry: an immediate `Field` or a `Relationship`. -/
inductive FieldBase where
  | field (f : FieldF) : FieldBase
  | relationship (r : Rel) : FieldBase
/-- `Relationship` (lines 147-202): target, query builder, join
specification, argument names, cardinality policy, internal flag.
(`_wrap_type`, the GraphQL type wrapper, is not modelled; no claim depends
on the published type beyond the internal-flag filter.) -/
inductive Rel where
  | mk (target : Entity) (build_query : Args → Query → Ctx → Query)
      (join : List (String × String)) (args : List String)
      (process_results : List V → Except Err V) (internal : Bool) : Rel
end

def Rel.target : Rel → Entity
  | .mk t _ _ _ _ _ => t

def Rel.build_query : Rel → (Args → Query → Ctx → Query)
  | .mk _ b _ _ _ _ => b

def Rel.join : Rel → List (String × String)
  | .mk _ _ j _ _ _ => j

def Rel.args : Rel → List String
  | .mk _ _ _ a _ _ => a

def Rel.process_results : Rel → (List V → Except Err V)
  | .mk _ _ _ _ p _ => p

def Rel.internal : Rel → Bool
  | .mk _ _ _ _ _ i => i

/-- `Request` (requests.py lines 19-26): key, resolved field descriptor,
coerced arguments, child selections, inherited join selections, context. -/
inductive Request where
  | mk (key : String) (field : Option FieldBase) (args : Args)
      (selections : List Request) (join_selections : List ImmSel)
      (ctx : Ctx) : Request

def Request.key : Request → String
  | .mk k _ _ _ _ _ => k

def Request.field : Request → Option FieldBase
  | .mk _ f _ _ _ _ => f

def Request.args : Request → Args
  | .mk _ _ a _ _ _ => a

def Request.selections : Request → List Request
  | .mk _ _ _ s _ _ => s

def Request.join_selections : Request → List ImmSel
  | .mk _ _ _ _ js _ => js

def Request.ctx : Request → Ctx
  | .mk _ _ _ _ _ c => c

/-- `assoc(request, join_selections=...)` (line 196). -/
def Request.with_join_selections : Request → List ImmSel → Request
  | .mk k f a s _ c, js => .mk k f a s js c

/-- `assoc(request, selections=...)` (line 336). -/
def Request.with_selections : Request → List Request → Request
  | .mk k f a _ js c, s => .mk k f a s js c

/-- `partition` (util.py lines 1-11): split preserving order. -/
def partition {α : Type} (func : α → Bool) : List α → List α × List α
  | [] => ([], [])
  | v :: vs =>
    let r := partition func vs
    if func v then (v :: r.1, r.2) else (r.1, v :: r.2)

/-- `unique` (util.py lines 27-36): keep the first occurrence of each key. -/
def uniqueLoop {α κ : Type} [DecidableEq κ] (key : α → κ) (seen : List κ) :
    List α → List α
  | [] => []
  | v :: vs =>
    if key v ∈ seen then uniqueLoop key seen vs
    else v :: uniqueLoop key (key v :: seen) vs

def unique {α κ : Type} [DecidableEq κ] (key : α → κ) (values : List α) : List α :=
  uniqueLoop key [] values

/-- Monadic map over `Except` with explicit recursion (list comprehensions
and loops whose body may raise). -/
def mapE {α β : Type} (f : α → Except Err β) : List α → Except Err (List β)
  | [] => .ok []
  | x :: xs => (f x).bind (fun y => (mapE f xs).map (fun ys => y :: ys))

/-- Python `dict` lookup over a field registry (first match; registry keys
are unique by construction). -/
def lookupField (l : List (String × FieldBase)) (k : String) : Option FieldBase :=
  match l with
  | [] => none
  | p :: rest => if p.1 = k then some p.2 else lookupField rest k

/-- `JoinType.fields` / `ScalarJoinType.fields` (lines 325-329, 358-361),
with fuel for the lazily unfolded cyclic field graph: a `ScalarJoinType`
over a relationship field exposes the relationship's target's fields, over
an immediate field no fields. -/
def fieldsOfN : Nat → Entity → List (String × FieldBase)
  | 0, _ => []
  | _ + 1, .joinType _ _ flds => flds
  | n + 1, .scalarJoinType t fname =>
    match lookupField (fieldsOfN n t) fname with
    | some (.relationship r) => fieldsOfN n r.target
    | _ => []

/-- `join_fields` (lines 331-332, 363-364): a `ScalarJoinType` joins through
its underlying target. -/
def join_fields : Entity → List (String × FieldBase)
  | .joinType _ _ flds => flds
  | .scalarJoinType t _ => join_fields t

/-- The `Field` payload carried by a selection, as handed to
`fetch_immediates`. -/
def toImmSel (r : Request) : ImmSel :=
  ⟨r.key, match r.field with
    | some (.field f) => some f
    | _ => none⟩

/-- `Relationship._parent_join_keys` (line 157). -/
def parent_join_keys (r : Rel) : List String :=
  r.join.map (fun p => "_graphjoiner_joinToChildrenKey_" ++ p.1)

/-- `Relationship.parent_join_selections` (lines 181-186): synthetic
immediate selections on the parent for each parent-side join field
(`fields[field_name]` raising `KeyError` when absent). -/
def parent_join_selections (r : Rel) (parentFields : List (String × FieldBase)) :
    Except Err (List ImmSel) :=
  mapE (fun p =>
    match lookupField parentFields p.1 with
    | none => .error (.exception ("KeyError: " ++ p.1))
    | some fb => .ok ⟨"_graphjoiner_joinToChildrenKey_" ++ p.1,
        match fb with
        | .field f => some f
        | .relationship _ => none⟩) r.join

/-- The child-side synthetic join selections of `Relationship.fetch`
(lines 190-194). -/
def child_join_selections (r : Rel) : Except Err (List ImmSel) :=
  mapE (fun p =>
    match lookupField (join_fields r.target) p.2 with
    | none => .error (.exception ("KeyError: " ++ p.2))
    | some fb => .ok ⟨"_graphjoiner_joinToParentKey_" ++ p.2,
        match fb with
        | .field f => some f
        | .relationship _ => none⟩) r.join

/-- Is this selection's field a relationship?
(`isinstance(selection.field, Relationship)`, line 368). -/
def isRelationshipSel (s : Request) : Bool :=
  match s.field with
  | some (.relationship _) => true
  | _ => false

def selRel (s : Request) : Option Rel :=
  match s.field with
  | some (.relationship r) => some r
  | _ => none

/-- One `fetch_immediates` invocation, for the batching trace: which entity
fetched which columns against which query. -/
structure Call where
  entity : String
  keys : List String
  query : Query

abbrev Trace := List Call

/-- Sequencing for the traced exception monad `Trace × Except Err α`. -/
def tbind {α β : Type} (x : Trace × Except Err α)
    (f : α → Trace × Except Err β) : Trace × Except Err β :=
  match x with
  | (t, .error e) => (t, .error e)
  | (t, .ok a) =>
    match f a with
    | (t2, r) => (t ++ t2, r)

def tlift {α : Type} (x : Except Err α) : Trace × Except Err α :=
  ([], x)

/-- Read the dictionary of a fetched row value. -/
def asObj : V → List (String × V)
  | .vobj l => l
  | _ => []

/-- Lines 396-402: one `Result` per row — `value` maps every requested
selection key to the row's value (synthetic columns do not appear), and
`join_values` is the tuple of the row's values at the caller's join
selections, in the caller's order. -/
def build_results (request : Request) (rows : List Dict) : List Result :=
  rows.map (fun result =>
    ⟨V.vobj (request.selections.map (fun s => (s.key, dgetD result s.key))),
      request.join_selections.map (fun js => asScalar (dgetD result js.key))⟩)

/-- The parent-side synthetic selections contributed by the relationship
selections (lines 372-376). -/
def join_to_children_selections (parentFields : List (String × FieldBase))
    (relationship_selections : List Request) : Except Err (List ImmSel) :=
  (mapE (fun sel =>
    match selRel sel with
    | none => .error (.exception "TypeError: not a relationship")
    | some r => parent_join_selections r parentFields) relationship_selections).map
    List.flatten

/-- The de-duplicated immediate selection union of `JoinType.fetch`
(lines 378-381): requested immediates, then inherited join selections, then
parent-side synthetics; first occurrence of a key wins. -/
def immediate_selections_of (request : Request)
    (requested_immediate_selections : List Request) (jtc : List ImmSel) :
    List ImmSel :=
  unique ImmSel.key
    (requested_immediate_selections.map toImmSel ++ request.join_selections ++ jtc)

/-- `Relationship.fetch` (lines 188-202), parameterized by the target's
fetch (the recursion handle): build the child query, compute the child-side
join selections, fetch the child entity for the whole batch, and group the
results. -/
def relationshipFetch
    (fetch : Entity → Request → Query → Trace × Except Err (List Result))
    (r : Rel) (request : Request) (parent_query : Query) :
    Trace × Except Err RelationshipResults :=
  let query := r.build_query request.args parent_query request.ctx
  tbind (tlift (child_join_selections r)) (fun join_selections =>
    tbind (fetch r.target (request.with_join_selections join_selections) query)
      (fun results =>
        ([], .ok (mkRelationshipResults results r.process_results
          (parent_join_keys r)))))

/-- The per-relationship loop of `JoinType.fetch` (lines 391-394): for each
relationship selection in order, fetch its children once for the whole
result set, then attach each row's group
(`result[selection.key] = children.get(result)`); a cardinality error while
attaching aborts before later relationships are fetched. -/
def attachRelationships
    (fetch : Entity → Request → Query → Trace × Except Err (List Result)) :
    List Request → Query → List Dict → Trace × Except Err (List Dict)
  | [], _, results => ([], .ok results)
  | sel :: rest, query, results =>
    (selRel sel).elim ([], .error (.exception "TypeError: not a relationship"))
      (fun r =>
        tbind (relationshipFetch fetch r sel query) (fun children =>
          tbind (tlift (mapE (fun result =>
              (children.get result).map (fun v => result ++ [(sel.key, v)])) results))
            (fun results2 => attachRelationships fetch rest query results2)))

/-- `JoinType.fetch` / `ScalarJoinType.fetch` (lines 334-340, 366-402), with
fuel bounding the recursion depth.  Alongside the result, the trace of
`fetch_immediates` invocations is collected. -/
def entityFetch : Nat → Entity → Request → Query → Trace × Except Err (List Result)
  | 0, _, _, _ => ([], .error .outOfFuel)
  | fuel + 1, .joinType nm fi flds, request, query =>
    let parts := partition isRelationshipSel request.selections
    tbind (tlift (join_to_children_selections flds parts.1)) (fun jtc =>
      let immediate_selections := immediate_selections_of request parts.2 jtc
      let keys := immediate_selections.map ImmSel.key
      tbind ([Call.mk nm keys query], .ok ()) (fun _ =>
        tbind (tlift (fi immediate_selections query request.ctx)) (fun rows =>
          let results := rows.map (fun row => List.zip keys (row.map V.prim))
          tbind (attachRelationships (entityFetch fuel) parts.1 query results)
            (fun results2 => ([], .ok (build_results request results2))))))
  | fuel + 1, .scalarJoinType target field_name, request, query =>
    (lookupField (fieldsOfN (fuel + 1) target) field_name).elim
      ([], .error (.exception ("KeyError: " ++ field_name)))
      (fun f =>
        let field_request := Request.mk field_name (some f) [] request.selections
          [] request.ctx
        tbind (entityFetch fuel target (request.with_selections [field_request]) query)
          (fun results =>
            ([], .ok (results.map (fun res =>
              ⟨dgetD (asObj res.value) field_name, res.join_values⟩)))))

/-! ### The structural call plan

`expectedCalls` mirrors the fetch recursion but never invokes (or even
receives results from) any `fetch_immediates` collaborator: it emits exactly
one `Call` per entity level and recurses exactly once per relationship
selection.  It is a function of the selection tree, the entity schema and
the query chain alone — the number of parent rows cannot influence it. -/

def expectedRelationshipCalls (calls : Entity → Request → Query → Except Err Trace)
    (r : Rel) (request : Request) (parent_query : Query) : Except Err Trace :=
  let query := r.build_query request.args parent_query request.ctx
  (child_join_selections r).bind (fun join_selections =>
    calls r.target (request.with_join_selections join_selections) query)

def expectedAttachCalls (calls : Entity → Request → Query → Except Err Trace) :
    List Request → Query → Except Err Trace
  | [], _ => .ok []
  | sel :: rest, query =>
    (selRel sel).elim (.error (.exception "TypeError: not a relationship"))
      (fun r =>
        (expectedRelationshipCalls calls r sel query).bind (fun t1 =>
          (expectedAttachCalls calls rest query).map (fun t2 => t1 ++ t2)))

def expectedCalls : Nat → Entity → Request → Query → Except Err Trace
  | 0, _, _, _ => .error .outOfFuel
  | fuel + 1, .joinType nm _ flds, request, query =>
    let parts := partition isRelationshipSel request.selections
    (join_to_children_selections flds parts.1).bind (fun jtc =>
      let immediate_selections := immediate_selections_of request parts.2 jtc
      let keys := immediate_selections.map ImmSel.key
      (expectedAttachCalls (expectedCalls fuel) parts.1 query).map
        (fun t => Call.mk nm keys query :: t))
  | fuel + 1, .scalarJoinType target field_name, request, query =>
    (lookupField (fieldsOfN (fuel + 1) target) field_name).elim
      (.error (.exception ("KeyError: " ++ field_name)))
      (fun f =>
        let field_request := Request.mk field_name (some f) [] request.selections
          [] request.ctx
        expectedCalls fuel target (request.with_selections [field_request]) query)

/-! ### Relationship constructors (lines 244-312) -/

/-- `single`. -/
def single (target : Entity) (build_query : Args → Query → Ctx → Query)
    (join : List (String × String)) (args : List String) (internal : Bool) : Rel :=
  .mk target build_query join args _single internal

/-- `single_or_null`. -/
def single_or_null (target : Entity) (build_query : Args → Query → Ctx → Query)
    (join : List (String × String)) (args : List String) (internal : Bool) : Rel :=
  .mk target build_query join args _single_or_none internal

/-- `first_or_null`. -/
def first_or_null (target : Entity) (build_query : Args → Query → Ctx → Query)
    (join : List (String × String)) (args : List String) (internal : Bool) : Rel :=
  .mk target build_query join args _first_or_none internal

/-- `many`. -/
def many (target : Entity) (build_query : Args → Query → Ctx → Query)
    (join : List (String × String)) (args : List String) (internal : Bool) : Rel :=
  .mk target build_query join args many_process_results internal

/-- `Relationship.copy` (lines 159-179): replace the supplied components,
keep the rest (`process_results` and `wrap_type` are always kept). -/
def Rel.copy (r : Rel) (target : Option Entity)
    (build_query : Option (Args → Query → Ctx → Query))
    (join : Option (List (String × String))) (args : Option (List String))
    (internal : Option Bool) : Rel :=
  .mk (target.getD r.target) (build_query.getD r.build_query)
    (join.getD r.join) (args.getD r.args) r.process_results
    (internal.getD r.internal)

/-- `extract` (lines 308-312): re-target the relationship at one field of
its target via a `ScalarJoinType`, and force `internal=False`. -/
def extract (relationship : Rel) (field_name : String) : Rel :=
  relationship.copy (some (.scalarJoinType relationship.target field_name))
    none none none (some false)

/-! ### C1: the batching invariant -/

theorem tbind_ok {α β : Type} {x : Trace × Except Err α}
    {f : α → Trace × Except Err β} {t : Trace} {b : β}
    (h : tbind x f = (t, .ok b)) :
    ∃ t1 a t2, x = (t1, .ok a) ∧ f a = (t2, .ok b) ∧ t = t1 ++ t2 := by
  rcases x with ⟨t1, r⟩
  cases r with
  | error e => simp [tbind] at h
  | ok a =>
    rcases hf : f a with ⟨t2, r2⟩
    rw [tbind, hf] at h
    injection h with h1 h2
    cases r2 with
    | error e => simp at h2
    | ok b2 =>
      refine ⟨t1, a, t2, rfl, ?_, h1.symm⟩
      rw [hf]
      rw [Except.ok.inj h2]

theorem pair_ok {α : Type} {tr : Trace} {x : Except Err α} {t : Trace} {a : α}
    (h : (tr, x) = (t, .ok a)) : t = tr ∧ x = .ok a := by
  injection h with h1 h2
  exact ⟨h1.symm, h2⟩

theorem relationshipFetch_calls
    (f : Entity → Request → Query → Trace × Except Err (List Result))
    (g : Entity → Request → Query → Except Err Trace)
    (hfg : ∀ e req q t res, f e req q = (t, .ok res) → g e req q = .ok t) :
    ∀ (r : Rel) (req : Request) (q : Query) (t : Trace) (rr : RelationshipResults),
      relationshipFetch f r req q = (t, .ok rr) →
      expectedRelationshipCalls g r req q = .ok t := by
  intro r req q t rr hok
  rw [relationshipFetch] at hok
  obtain ⟨t1, js, t2, h1, h2, ht⟩ := tbind_ok hok
  obtain ⟨h1t, h1x⟩ := pair_ok h1
  obtain ⟨t3, results, t4, h3, h4, ht2⟩ := tbind_ok h2
  obtain ⟨h4t, _⟩ := pair_ok h4
  rw [expectedRelationshipCalls, h1x]
  show Except.bind (Except.ok js) _ = _
  rw [Except.bind]
  rw [hfg _ _ _ _ _ h3]
  rw [ht, ht2, h1t, h4t]
  simp

theorem attachRelationships_calls
    (f : Entity → Request → Query → Trace × Except Err (List Result))
    (g : Entity → Request → Query → Except Err Trace)
    (hfg : ∀ e req q t res, f e req q = (t, .ok res) → g e req q = .ok t) :
    ∀ (sels : List Request) (q : Query) (results : List Dict) (t : Trace)
      (out : List Dict),
      attachRelationships f sels q results = (t, .ok out) →
      expectedAttachCalls g sels q = .ok t := by
  intro sels
  induction sels with
  | nil =>
    intro q results t out hok
    rw [attachRelationships] at hok
    obtain ⟨ht, _⟩ := pair_ok hok
    rw [expectedAttachCalls, ht]
  | cons sel rest ihs =>
    intro q results t out hok
    rw [attachRelationships] at hok
    rcases hsr : selRel sel with _ | r <;> rw [hsr] at hok
    · simp [Option.elim] at hok
    · simp only [Option.elim] at hok
      obtain ⟨t1, children, t2, h1, h2, ht⟩ := tbind_ok hok
      obtain ⟨t3, results2, t4, h3, h4, ht2⟩ := tbind_ok h2
      obtain ⟨h3t, _⟩ := pair_ok h3
      rw [expectedAttachCalls, hsr]
      simp only [Option.elim]
      rw [relationshipFetch_calls f g hfg r sel q t1 children h1]
      show Except.bind (Except.ok t1) _ = _
      rw [Except.bind]
      rw [ihs q results2 t4 out h4]
      rw [ht, ht2, h3t]
      simp [Except.map]

/-- The trace of a completed fetch is the structural call plan: one
`fetch_immediates` call per entity level and one recursive descent per
relationship selection, independent of the fetched rows. -/
theorem entityFetch_calls :
    ∀ (fuel : Nat) (e : Entity) (req : Request) (q : Query) (t : Trace)
      (res : List Result),
      entityFetch fuel e req q = (t, .ok res) →
      expectedCalls fuel e req q = .ok t := by
  intro fuel
  induction fuel with
  | zero =>
    intro e req q t res h
    rw [entityFetch] at h
    exact absurd (pair_ok h).2 (by simp)
  | succ fuel ih =>
    intro e req q t res h
    cases e with
    | joinType nm fi flds =>
      rw [entityFetch] at h
      obtain ⟨t1, jtc, t2, h1, h2, ht⟩ := tbind_ok h
      obtain ⟨h1t, h1x⟩ := pair_ok h1
      obtain ⟨t3, u, t4, h3, h4, ht2⟩ := tbind_ok h2
      obtain ⟨h3t, _⟩ := pair_ok h3
      obtain ⟨t5, rows, t6, h5, h6, ht3⟩ := tbind_ok h4
      obtain ⟨h5t, _⟩ := pair_ok h5
      obtain ⟨t7, results2, t8, h7, h8, ht4⟩ := tbind_ok h6
      obtain ⟨h8t, _⟩ := pair_ok h8
      rw [expectedCalls, h1x]
      show Except.bind (Except.ok jtc) _ = _
      rw [Except.bind]
      rw [attachRelationships_calls (entityFetch fuel) (expectedCalls fuel) ih
        _ q _ t7 results2 h7]
      rw [ht, ht2, ht3, ht4, h1t, h3t, h5t, h8t]
      simp [Except.map]
    | scalarJoinType tgt fname =>
      rw [entityFetch] at h
      rcases hlf : lookupField (fieldsOfN (fuel + 1) tgt) fname with _ | f <;>
        rw [hlf] at h
      · simp [Option.elim] at h
      · simp only [Option.elim] at h
        obtain ⟨t1, results, t2, h1, h2, ht⟩ := tbind_ok h
        obtain ⟨h2t, _⟩ := pair_ok h2
        rw [expectedCalls, hlf]
        simp only [Option.elim]
        rw [ih _ _ _ _ _ h1, ht, h2t]
        simp

/-- C1: for every completed query execution, the `fetch_immediates` trace of
`JoinType.fetch` equals the structural call plan `expectedCalls`, which is
computed from the selection tree, the entity schema and the query chain
alone — it never consults any `fetch_immediates` collaborator, and by
construction emits exactly one call per entity level, descending exactly
once (`Relationship.fetch`, once for the whole result set) per relationship
selection.  Hence the flat fetch at a given relationship position happens
exactly once per execution, regardless of how many parent rows exist at the
level above. -/
theorem batching_one_fetch_per_level (fuel : Nat) (e : Entity) (req : Request)
    (q : Query) (t : Trace) (res : List Result)
    (h : entityFetch fuel e req q = (t, .ok res)) :
    expectedCalls fuel e req q = .ok t :=
  entityFetch_calls fuel e req q t res h

/-! Concrete fixture for the batching witness: a Book entity with a `many`
relationship to Author on `authorId = id`, queried as
`{ id author { name } }`, with a two-row and a zero-row Book collaborator. -/

def authorEntityW : Entity :=
  .joinType "Author" (fun sels _ _ => .ok [sels.map (fun s => S.s ("a:" ++ s.key))])
    [("id", .field ⟨"id", false⟩), ("name", .field ⟨"name", false⟩)]

def authorRelW : Rel :=
  many authorEntityW (fun _ q _ => q) [("authorId", "id")] [] false

def bookFieldsW : List (String × FieldBase) :=
  [("id", .field ⟨"id", false⟩), ("authorId", .field ⟨"authorId", false⟩),
    ("author", .relationship authorRelW)]

def bookFi2W : List ImmSel → Query → Ctx → Except Err (List (List S)) :=
  fun sels _ _ => .ok
    [sels.map (fun s => S.s ("b1:" ++ s.key)), sels.map (fun s => S.s ("b2:" ++ s.key))]

def bookEntity2W : Entity :=
  .joinType "Book" bookFi2W bookFieldsW

def bookEntity0W : Entity :=
  .joinType "Book" (fun _ _ _ => .ok []) bookFieldsW

def reqW : Request :=
  .mk "root" none []
    [Request.mk "id" (some (.field ⟨"id", false⟩)) [] [] [] (V.prim S.null),
      Request.mk "author" (some (.relationship authorRelW)) []
        [Request.mk "name" (some (.field ⟨"name", false⟩)) [] [] [] (V.prim S.null)]
        [] (V.prim S.null)]
    [] (V.prim S.null)

/-- Witness for C1: with two Book rows and with zero Book rows, the completed
execution's call plan is the same — one Book fetch and one batched Author
fetch, not one per Book row. -/
theorem batching_one_fetch_per_level_witness :
    expectedCalls 3 bookEntity2W reqW (V.prim S.null) =
      .ok [⟨"Book", ["id", "_graphjoiner_joinToChildrenKey_authorId"], V.prim S.null⟩,
        ⟨"Author", ["name", "_graphjoiner_joinToParentKey_id"], V.prim S.null⟩] ∧
    expectedCalls 3 bookEntity0W reqW (V.prim S.null) =
      .ok [⟨"Book", ["id", "_graphjoiner_joinToChildrenKey_authorId"], V.prim S.null⟩,
        ⟨"Author", ["name", "_graphjoiner_joinToParentKey_id"], V.prim S.null⟩] := by
  constructor
  · exact batching_one_fetch_per_level 3 bookEntity2W reqW (V.prim S.null)
      [⟨"Book", ["id", "_graphjoiner_joinToChildrenKey_authorId"], V.prim S.null⟩,
        ⟨"Author", ["name", "_graphjoiner_joinToParentKey_id"], V.prim S.null⟩]
      [⟨V.vobj [("id", V.prim (S.s "b1:id")), ("author", V.vlist [])], []⟩,
        ⟨V.vobj [("id", V.prim (S.s "b2:id")), ("author", V.vlist [])], []⟩]
      rfl
  · exact batching_one_fetch_per_level 3 bookEntity0W reqW (V.prim S.null)
      [⟨"Book", ["id", "_graphjoiner_joinToChildrenKey_authorId"], V.prim S.null⟩,
        ⟨"Author", ["name", "_graphjoiner_joinToParentKey_id"], V.prim S.null⟩]
      [] rfl

/-- C8: every `Result` of a completed `JoinType.fetch` is built by lines
396-402 (`build_results`): its `value` is an object over exactly the
originally requested selection keys, in request order — the synthetic
join-only columns of the fetched row dictionaries are excluded — and its
`join_values` is the tuple of the row's values at precisely the
caller-supplied join selections, in the caller's order (the empty tuple when
the caller supplied none). -/
theorem result_shape (fuel : Nat) (nm : String)
    (fi : List ImmSel → Query → Ctx → Except Err (List (List S)))
    (flds : List (String × FieldBase)) (req : Request) (q : Query)
    (t : Trace) (res : List Result)
    (h : entityFetch (fuel + 1) (.joinType nm fi flds) req q = (t, .ok res)) :
    ∃ rows : List Dict,
      res = build_results req rows ∧
      ∀ r ∈ res,
        (∃ l, r.value = V.vobj l ∧ l.map Prod.fst = req.selections.map Request.key) ∧
        r.join_values.length = req.join_selections.length ∧
        (req.join_selections = [] → r.join_values = []) := by
  rw [entityFetch] at h
  obtain ⟨t1, jtc, t2, h1, h2, ht⟩ := tbind_ok h
  obtain ⟨t3, u, t4, h3, h4, ht2⟩ := tbind_ok h2
  obtain ⟨t5, rows0, t6, h5, h6, ht3⟩ := tbind_ok h4
  obtain ⟨t7, results2, t8, h7, h8, ht4⟩ := tbind_ok h6
  obtain ⟨_, h8x⟩ := pair_ok h8
  refine ⟨results2, (Except.ok.inj h8x).symm, ?_⟩
  intro r hr
  rw [← Except.ok.inj h8x] at hr
  rw [build_results] at hr
  obtain ⟨row, _, hrow⟩ := List.mem_map.mp hr
  subst hrow
  refine ⟨⟨req.selections.map (fun s => (s.key, dgetD row s.key)), rfl, ?_⟩, ?_, ?_⟩
  · rw [List.map_map]
    rfl
  · exact List.length_map _ _
  · intro hjs
    rw [hjs]
    rfl

/-- Witness for C8, at the two-row Book fixture: the two results are built
from the fetched rows, the values carry exactly the requested keys `id` and
`author` (the synthetic `_graphjoiner_joinToChildrenKey_authorId` column
does not appear), and the join tuples are empty because the caller supplied
no join selections. -/
theorem result_shape_witness :
    ∃ rows : List Dict,
      [(⟨V.vobj [("id", V.prim (S.s "b1:id")), ("author", V.vlist [])], []⟩ : Result),
        ⟨V.vobj [("id", V.prim (S.s "b2:id")), ("author", V.vlist [])], []⟩] =
        build_results reqW rows ∧
      ∀ r ∈ [(⟨V.vobj [("id", V.prim (S.s "b1:id")), ("author", V.vlist [])], []⟩ : Result),
          ⟨V.vobj [("id", V.prim (S.s "b2:id")), ("author", V.vlist [])], []⟩],
        (∃ l, r.value = V.vobj l ∧ l.map Prod.fst = reqW.selections.map Request.key) ∧
        r.join_values.length = reqW.join_selections.length ∧
        (reqW.join_selections = [] → r.join_values = []) :=
  result_shape 2 "Book" bookFi2W bookFieldsW reqW (V.prim S.null)
    [⟨"Book", ["id", "_graphjoiner_joinToChildrenKey_authorId"], V.prim S.null⟩,
      ⟨"Author", ["name", "_graphjoiner_joinToParentKey_id"], V.prim S.null⟩]
    [⟨V.vobj [("id", V.prim (S.s "b1:id")), ("author", V.vlist [])], []⟩,
      ⟨V.vobj [("id", V.prim (S.s "b2:id")), ("author", V.vlist [])], []⟩]
    rfl

/-! ### C10: extraction and the published type -/

/-- `getattr(field, "internal", False)` (line 411). -/
def fieldInternal : FieldBase → Bool
  | .field f => f.internal
  | .relationship r => r.internal

/-- The field names of the GraphQL object type published by
`JoinType.to_graphql_type` (lines 404-416): every field whose `internal`
flag is not set.  (`ScalarJoinType.to_graphql_type` publishes the extracted
field's type, not an object type.) -/
def to_graphql_type_field_names (e : Entity) : List String :=
  match e with
  | .joinType _ _ flds => (flds.filter (fun p => !(fieldInternal p.2))).map Prod.fst
  | .scalarJoinType _ _ => []

/-- C10: `extract` always passes `internal=False` to `Relationship.copy`, so
the extracted relationship is never internal — even when the underlying
relationship is — and a field defined by it is therefore always among the
published field names of its owning type. -/
theorem extract_is_external (r : Rel) (fname : String) :
    (extract r fname).internal = false ∧
    ∀ (nm : String) (fi : List ImmSel → Query → Ctx → Except Err (List (List S)))
      (flds : List (String × FieldBase)) (n : String),
      (n, FieldBase.relationship (extract r fname)) ∈ flds →
      n ∈ to_graphql_type_field_names (.joinType nm fi flds) := by
  refine ⟨rfl, ?_⟩
  intro nm fi flds n hmem
  show n ∈ ((flds.filter (fun p => !(fieldInternal p.2))).map Prod.fst)
  refine List.mem_map.mpr ⟨(n, .relationship (extract r fname)), ?_, rfl⟩
  refine List.mem_filter.mpr ⟨hmem, ?_⟩
  simp [fieldInternal]
  rfl

/-- Witness for C10: extracting from an internal relationship yields an
external relationship, and such a field is published. -/
theorem extract_is_external_witness :
    (extract (many authorEntityW (fun _ q _ => q) [("authorId", "id")] [] true)
      "name").internal = false ∧
    "authorNames" ∈ to_graphql_type_field_names (.joinType "Root"
      (fun _ _ _ => .ok [])
      [("authorNames", .relationship
        (extract (many authorEntityW (fun _ q _ => q) [("authorId", "id")] [] true)
          "name"))]) := by
  refine ⟨(extract_is_external
    (many authorEntityW (fun _ q _ => q) [("authorId", "id")] [] true) "name").1, ?_⟩
  exact (extract_is_external
    (many authorEntityW (fun _ q _ => q) [("authorId", "id")] [] true) "name").2
    "Root" (fun _ _ _ => .ok []) _ "authorNames" (List.mem_singleton.mpr rfl)

/-! ### C7: extraction transparency -/

theorem dgetD_single (k : String) (v : V) : dgetD [(k, v)] k = v := by
  simp [dgetD, dget]

/-- Evaluating `JoinType.fetch` for a request selecting one immediate column
against a row/column-consistent `fetch_immediates` collaborator (the spec's
contract: one row-tuple per logical row, cells aligned to the requested
columns): one call, and one `Result` per logical row carrying that column's
value. -/
theorem fetch_single_column {ρ : Type} (fuel : Nat) (nm xcol : String) (f : FieldF)
    (flds : List (String × FieldBase))
    (fi : List ImmSel → Query → Ctx → Except Err (List (List S)))
    (rows : Query → List ρ) (colVal : ρ → String → S)
    (hfi : ∀ sels q c, fi sels q c =
      .ok ((rows q).map (fun lr => sels.map (fun sel => colVal lr sel.key))))
    (k0 : String) (f0 : Option FieldBase) (a0 : Args) (q : Query) (C C0 : Ctx) :
    entityFetch (fuel + 1) (.joinType nm fi flds)
      (.mk k0 f0 a0 [.mk xcol (some (.field f)) [] [] [] C] [] C0) q =
      ([⟨nm, [xcol], q⟩],
        .ok ((rows q).map (fun lr =>
          ⟨V.vobj [(xcol, V.prim (colVal lr xcol))], []⟩))) := by
  rw [entityFetch]
  simp only [tbind, tlift, partition, isRelationshipSel, Request.field,
    Request.selections, Request.join_selections, Request.ctx, Request.key,
    join_to_children_selections, mapE, immediate_selections_of, unique,
    uniqueLoop, toImmSel, List.map, List.map_map, Except.map, Except.bind,
    attachRelationships, List.append_nil, List.nil_append, List.not_mem_nil,
    if_false, ite_false]
  simp only [hfi]
  simp [build_results, Function.comp, dgetD_single, List.map_map, tbind,
    attachRelationships, List.zip, Request.selections, Request.join_selections,
    Request.key]

/-- C7: extraction is transparent to the `many` policy.  Against a
row/column-consistent collaborator returning N logical rows,
`extract(many(T), "x")` resolves to exactly the list of the N `x`-values,
`many(T)` (selecting `x`) resolves to the list of the N target objects, and
the two lists align element by element in the same (fetch) order: the
extracted list is precisely the `x`-entry of each target object in order. -/
theorem extraction_transparency {ρ : Type} (fuel : Nat) (nm xcol : String)
    (f : FieldF) (flds : List (String × FieldBase))
    (fi : List ImmSel → Query → Ctx → Except Err (List (List S)))
    (rows : Query → List ρ) (colVal : ρ → String → S)
    (hfx : lookupField flds xcol = some (.field f))
    (hfi : ∀ sels q c, fi sels q c =
      .ok ((rows q).map (fun lr => sels.map (fun sel => colVal lr sel.key))))
    (bq : Args → Query → Ctx → Query) (A : Args) (C : Ctx)
    (kE kM : String) (fE fM : Option FieldBase) (parentQ : Query) (parent : Dict) :
    ∃ (tE tM : Trace) (rrE rrM : RelationshipResults),
      relationshipFetch (entityFetch (fuel + 1 + 1))
        (extract (many (.joinType nm fi flds) bq [] [] false) xcol)
        (.mk kE fE A [] [] C) parentQ = (tE, .ok rrE) ∧
      relationshipFetch (entityFetch (fuel + 1))
        (many (.joinType nm fi flds) bq [] [] false)
        (.mk kM fM A [.mk xcol (some (.field f)) [] [] [] C] [] C) parentQ =
        (tM, .ok rrM) ∧
      rrE.get parent = .ok (V.vlist ((rows (bq A parentQ C)).map
        (fun lr => V.prim (colVal lr xcol)))) ∧
      rrM.get parent = .ok (V.vlist ((rows (bq A parentQ C)).map
        (fun lr => V.vobj [(xcol, V.prim (colVal lr xcol))]))) ∧
      ((rows (bq A parentQ C)).map (fun lr => V.prim (colVal lr xcol))) =
        ((rows (bq A parentQ C)).map
          (fun lr => V.vobj [(xcol, V.prim (colVal lr xcol))])).map
          (fun v => dgetD (asObj v) xcol) := by
  have hE : relationshipFetch (entityFetch (fuel + 1 + 1))
      (extract (many (.joinType nm fi flds) bq [] [] false) xcol)
      (.mk kE fE A [] [] C) parentQ =
      ([⟨nm, [xcol], bq A parentQ C⟩],
        .ok (mkRelationshipResults ((rows (bq A parentQ C)).map
          (fun lr => ⟨V.prim (colVal lr xcol), []⟩)) many_process_results [])) := by
    rw [relationshipFetch]
    simp only [extract, Rel.copy, many, Rel.target, Rel.build_query, Rel.join,
      Rel.args, Rel.process_results, Rel.internal, Option.getD,
      child_join_selections, join_fields, mapE, parent_join_keys, List.map,
      Request.args, Request.ctx, Request.with_join_selections, tlift, tbind]
    rw [entityFetch]
    simp only [fieldsOfN, hfx, Option.elim, Request.selections, Request.ctx,
      Request.with_selections]
    rw [fetch_single_column fuel nm xcol f flds fi rows colVal hfi]
    simp [tbind, asObj, dgetD_single, List.map_map, Function.comp]
    congr 1
    refine List.map_congr_left ?_
    intro lr _
    simp [Function.comp, asObj, dgetD_single]
  have hM : relationshipFetch (entityFetch (fuel + 1))
      (many (.joinType nm fi flds) bq [] [] false)
      (.mk kM fM A [.mk xcol (some (.field f)) [] [] [] C] [] C) parentQ =
      ([⟨nm, [xcol], bq A parentQ C⟩],
        .ok (mkRelationshipResults ((rows (bq A parentQ C)).map
          (fun lr => ⟨V.vobj [(xcol, V.prim (colVal lr xcol))], []⟩))
          many_process_results [])) := by
    rw [relationshipFetch]
    simp only [many, Rel.target, Rel.build_query, Rel.join, Rel.args,
      Rel.process_results, Rel.internal, child_join_selections, join_fields,
      mapE, parent_join_keys, List.map, Request.args, Request.ctx,
      Request.with_join_selections, tlift, tbind]
    rw [fetch_single_column fuel nm xcol f flds fi rows colVal hfi]
    simp [tbind]
  refine ⟨_, _, _, _, hE, hM, ?_, ?_, ?_⟩
  · rw [rel_get_eq_filter]
    have hfil : ((rows (bq A parentQ C)).map
        (fun lr => (⟨V.prim (colVal lr xcol), []⟩ : Result))).filter
        (fun r => decide (r.join_values = List.map
          (fun k => asScalar (dgetD parent k)) [])) =
        (rows (bq A parentQ C)).map (fun lr => ⟨V.prim (colVal lr xcol), []⟩) := by
      rw [List.filter_eq_self]
      intro r hr
      obtain ⟨lr, _, hlr⟩ := List.mem_map.mp hr
      subst hlr
      simp
    rw [hfil, many_process_results]
    simp [List.map_map, Function.comp]
  · rw [rel_get_eq_filter]
    have hfil : ((rows (bq A parentQ C)).map
        (fun lr => (⟨V.vobj [(xcol, V.prim (colVal lr xcol))], []⟩ : Result))).filter
        (fun r => decide (r.join_values = List.map
          (fun k => asScalar (dgetD parent k)) [])) =
        (rows (bq A parentQ C)).map
          (fun lr => ⟨V.vobj [(xcol, V.prim (colVal lr xcol))], []⟩) := by
      rw [List.filter_eq_self]
      intro r hr
      obtain ⟨lr, _, hlr⟩ := List.mem_map.mp hr
      subst hlr
      simp
    rw [hfil, many_process_results]
    simp [List.map_map, Function.comp]
  · simp [List.map_map, Function.comp, asObj, dgetD_single]

/-- A concrete two-row collaborator for the extraction witness. -/
def extRowsW : Query → List S := fun _ => [S.s "a", S.s "b"]

def extColValW : S → String → S := fun lr _ => lr

def extFiW : List ImmSel → Query → Ctx → Except Err (List (List S)) :=
  fun sels q _ =>
    .ok ((extRowsW q).map (fun lr => sels.map (fun sel => extColValW lr sel.key)))

def extFldsW : List (String × FieldBase) := [("title", .field ⟨"title", false⟩)]

/-- Witness for `extraction_transparency`: with a concrete two-row `Book`
collaborator, the hypotheses hold and the extraction/many runs both
succeed, yielding aligned `["a", "b"]` scalar and object lists. -/
theorem extraction_transparency_witness :
    ∃ (tE tM : Trace) (rrE rrM : RelationshipResults),
      relationshipFetch (entityFetch (0 + 1 + 1))
        (extract (many (.joinType "Book" extFiW extFldsW)
          (fun _ _ _ => V.prim S.null) [] [] false) "title")
        (.mk "titles" none [] [] [] (V.prim S.null)) (V.prim S.null) =
        (tE, .ok rrE) ∧
      relationshipFetch (entityFetch (0 + 1))
        (many (.joinType "Book" extFiW extFldsW)
          (fun _ _ _ => V.prim S.null) [] [] false)
        (.mk "books" none []
          [.mk "title" (some (.field ⟨"title", false⟩)) [] [] [] (V.prim S.null)]
          [] (V.prim S.null)) (V.prim S.null) = (tM, .ok rrM) ∧
      rrE.get [] = .ok (V.vlist ((extRowsW (V.prim S.null)).map
        (fun lr => V.prim (extColValW lr "title")))) ∧
      rrM.get [] = .ok (V.vlist ((extRowsW (V.prim S.null)).map
        (fun lr => V.vobj [("title", V.prim (extColValW lr "title"))]))) ∧
      ((extRowsW (V.prim S.null)).map (fun lr => V.prim (extColValW lr "title"))) =
        ((extRowsW (V.prim S.null)).map
          (fun lr => V.vobj [("title", V.prim (extColValW lr "title"))])).map
          (fun v => dgetD (asObj v) "title") :=
  @extraction_transparency S 0 "Book" "title" ⟨"title", false⟩ extFldsW extFiW
    extRowsW extColValW rfl (fun _ _ _ => rfl) (fun _ _ _ => V.prim S.null)
    [] (V.prim S.null) "titles" "books" none none (V.prim S.null) []

/-- C6 counterexample: a selection carrying `@skip(if: true)` followed by a
directive with an unknown name is dropped silently — no fatal error is raised
for the unknown directive, because `_should_include_node` returns as soon as
the skip matches.  This refutes the claim that a selection carrying a
directive with any other name always causes a fatal error. -/
theorem unknown_directive_after_skip_is_silently_ignored :
    _collect_fields [AstSelection.fld (FieldNode.mk "a" none
        [⟨"skip", some true⟩, ⟨"zzz", none⟩] none)] = .ok [] := by
  rw [_collect_fields, _add_fields_cons, _add_fields_nil]
  rfl

/-- Inversion: if the directive loop lets a node through, its head directive
was a non-excluding `@skip` or `@include` and the rest also let it through. -/
theorem _should_include_node_loop_true_inv {d : Directive} {ds : List Directive}
    (hc : _should_include_node_loop (d :: ds) = .ok true) :
    ((d.name = "skip" ∧ d.ifArg ≠ some true) ∨
      (d.name = "include" ∧ d.ifArg ≠ some false)) ∧
      _should_include_node_loop ds = .ok true := by
  rw [_should_include_node_loop] at hc
  by_cases h1 : d.name = "skip"
  · rw [if_pos h1] at hc
    by_cases h2 : d.ifArg = some true
    · rw [if_pos h2] at hc
      exact absurd hc (by simp)
    · rw [if_neg h2] at hc
      exact ⟨Or.inl ⟨h1, h2⟩, hc⟩
  · rw [if_neg h1] at hc
    by_cases h3 : d.name = "include"
    · rw [if_pos h3] at hc
      by_cases h4 : d.ifArg = some false
      · rw [if_pos h4] at hc
        exact absurd hc (by simp)
      · rw [if_neg h4] at hc
        exact ⟨Or.inr ⟨h3, h4⟩, hc⟩
    · rw [if_neg h3] at hc
      exact absurd hc (by simp)

/-- C6 (amended): `@skip(if: true)` / `@include(if: false)` exclude a node,
and an excluded selection contributes nothing to field collection (hence
nothing reaches the merge, children included); a selection whose directives
contain an unknown name is never resolved as if that directive were absent:
either an earlier `@skip`/`@include` directive already excluded the
selection, or directive processing aborts with the fatal
"Unknown directive" error — in particular the error is raised whenever no
earlier directive excluded the node. -/
theorem directive_handling :
    (∀ (sel : AstSelection) (xs ys : List AstSelection),
        _should_include_node sel = .ok false →
        _add_fields (xs ++ sel :: ys) = _add_fields (xs ++ ys)) ∧
    (∀ (ds : List Directive) (d : Directive), d ∈ ds →
        ((d.name = "skip" ∧ d.ifArg = some true) ∨
          (d.name = "include" ∧ d.ifArg = some false)) →
        _should_include_node_loop ds ≠ .ok true) ∧
    (∀ (ds : List Directive) (d : Directive), d ∈ ds →
        d.name ≠ "skip" → d.name ≠ "include" →
        _should_include_node_loop ds ≠ .ok true) ∧
    (∀ (pre post : List Directive) (d : Directive),
        (∀ e ∈ pre, (e.name = "skip" ∧ e.ifArg ≠ some true) ∨
          (e.name = "include" ∧ e.ifArg ≠ some false)) →
        d.name ≠ "skip" → d.name ≠ "include" →
        _should_include_node_loop (pre ++ d :: post) =
          .error (.exception ("Unknown directive: " ++ d.name))) := by
  refine ⟨?_, ?_, ?_, ?_⟩
  · intro sel xs ys h
    induction xs with
    | nil =>
      rw [List.nil_append, _add_fields_cons, h]
      rfl
    | cons x xs ih =>
      rw [List.cons_append, List.cons_append, _add_fields_cons, _add_fields_cons, ih]
  · intro ds d hmem hd
    induction ds with
    | nil => simp at hmem
    | cons e es ih =>
      intro hc
      obtain ⟨hhead, htail⟩ := _should_include_node_loop_true_inv hc
      rcases List.mem_cons.mp hmem with rfl | hmem
      · rcases hd with ⟨hn, hi⟩ | ⟨hn, hi⟩ <;>
          rcases hhead with ⟨hn', hi'⟩ | ⟨hn', hi'⟩
        · exact hi' hi
        · rw [hn] at hn'; simp at hn'
        · rw [hn] at hn'; simp at hn'
        · exact hi' hi
      · exact ih hmem htail
  · intro ds d hmem hskip hinc
    induction ds with
    | nil => simp at hmem
    | cons e es ih =>
      intro hc
      obtain ⟨hhead, htail⟩ := _should_include_node_loop_true_inv hc
      rcases List.mem_cons.mp hmem with rfl | hmem
      · rcases hhead with ⟨hn', _⟩ | ⟨hn', _⟩
        · exact hskip hn'
        · exact hinc hn'
      · exact ih hmem htail
  · intro pre post d hpre hskip hinc
    induction pre with
    | nil =>
      rw [List.nil_append, _should_include_node_loop,
        if_neg hskip, if_neg hinc]
    | cons e es ih =>
      have he := hpre e (List.mem_cons_self e es)
      have hrest : ∀ e' ∈ es, (e'.name = "skip" ∧ e'.ifArg ≠ some true) ∨
          (e'.name = "include" ∧ e'.ifArg ≠ some false) := by
        intro e' he'
        exact hpre e' (List.mem_cons_of_mem e he')
      rw [List.cons_append, _should_include_node_loop]
      rcases he with ⟨hn, hi⟩ | ⟨hn, hi⟩
      · rw [if_pos hn, if_neg hi]
        exact ih hrest
      · have hn' : ¬ e.name = "skip" := by rw [hn]; decide
        rw [if_neg hn', if_pos hn, if_neg hi]
        exact ih hrest

/-- Witness for C6: a `@skip(if: true)` selection in the middle of a
selection list contributes nothing; `@include(if: false)` excludes;
an unknown directive alone is never treated as absent;
`@skip(if: false)` followed by an unknown directive is a fatal error. -/
theorem directive_handling_witness :
    _add_fields
        [AstSelection.fld (FieldNode.mk "a" none [] none),
          AstSelection.fld (FieldNode.mk "b" none [⟨"skip", some true⟩]
            (some [AstSelection.fld (FieldNode.mk "c" none [] none)])),
          AstSelection.fld (FieldNode.mk "d" none [] none)] =
      _add_fields
        [AstSelection.fld (FieldNode.mk "a" none [] none),
          AstSelection.fld (FieldNode.mk "d" none [] none)] ∧
    _should_include_node_loop [⟨"include", some false⟩] ≠ .ok true ∧
    _should_include_node_loop [⟨"frob", none⟩] ≠ .ok true ∧
    _should_include_node_loop [⟨"skip", some false⟩, ⟨"frob", none⟩] =
      .error (.exception "Unknown directive: frob") := by
  refine ⟨?_, ?_, ?_, ?_⟩
  · exact directive_handling.1
      (AstSelection.fld (FieldNode.mk "b" none [⟨"skip", some true⟩]
        (some [AstSelection.fld (FieldNode.mk "c" none [] none)])))
      [AstSelection.fld (FieldNode.mk "a" none [] none)]
      [AstSelection.fld (FieldNode.mk "d" none [] none)] rfl
  · exact directive_handling.2.1 [⟨"include", some false⟩] ⟨"include", some false⟩
      (List.mem_singleton.mpr rfl) (Or.inr ⟨rfl, rfl⟩)
  · exact directive_handling.2.2.1 [⟨"frob", none⟩] ⟨"frob", none⟩
      (List.mem_singleton.mpr rfl) (by decide) (by decide)
  · exact directive_handling.2.2.2 [⟨"skip", some false⟩] [] ⟨"frob", none⟩
      (by intro e he; rw [List.mem_singleton] at he; subst he; left; exact ⟨rfl, by decide⟩)
      (by decide) (by decide)

/-! ### C9: the `_execute` error contract (`__init__.py` lines 51-91)

`_execute` parses and validates the query, builds the request (running the
repository's own directive handling and field merging from `requests.py`),
fetches the root data, optionally merges schema-introspection data, and wraps
everything in `try`/`except GraphQLError`.  The external `graphql-core`
collaborators (`parse`, `validate`, `graphql_execute`) and the glue that turns
merged field nodes into the root fetch (`request_from_graphql_ast` argument
handling plus `root.fetch`) are parameters; the directive/merge pipeline is
the `_collect_fields`/`_merge_fields` model above, so its exceptions are the
real ones. -/

/-- `graphql.execution.ExecutionResult` as constructed and returned by
`_execute`: `data`, `errors`, and the `invalid` flag. -/
structure ExecutionResult where
  data : Option V
  errors : Option (List String)
  invalid : Bool
  deriving Repr

/-- The `try` body of `_execute` (lines 52-89).  `graphql_execute` is pure, so
binding its result twice is equivalent to Python's single call. -/
def _execute_body {Doc : Type}
    (parse : String → Except Err Doc)
    (validate : Doc → List String)
    (docSelections : Doc → List AstSelection)
    (buildData : Doc → List FieldNode → Except Err V)
    (schema_query : Doc → Option Doc)
    (graphql_execute : Doc → ExecutionResult)
    (query : String) : Except Err ExecutionResult :=
  (parse query).bind (fun ast =>
    match validate ast with
    | e0 :: es0 => .ok ⟨none, some (e0 :: es0), true⟩
    | [] =>
      (_collect_fields (docSelections ast)).bind (fun collected =>
      (_merge_fields collected).bind (fun fields =>
      (buildData ast fields).bind (fun data =>
      match schema_query ast with
      | none => .ok ⟨some data, none, false⟩
      | some sq =>
        if (graphql_execute sq).invalid then .ok (graphql_execute sq)
        else .ok ⟨some (V.vobj (asObj data ++
          ((graphql_execute sq).data.map asObj).getD [])), none, false⟩))))

/-- `_execute` (lines 51-91): the body guarded by `except GraphQLError`,
which alone is converted to a structured failure result; any other exception
propagates to the caller. -/
def _execute {Doc : Type}
    (parse : String → Except Err Doc)
    (validate : Doc → List String)
    (docSelections : Doc → List AstSelection)
    (buildData : Doc → List FieldNode → Except Err V)
    (schema_query : Doc → Option Doc)
    (graphql_execute : Doc → ExecutionResult)
    (query : String) : Except Err ExecutionResult :=
  match _execute_body parse validate docSelections buildData schema_query
      graphql_execute query with
  | .error (.graphqlError msg) => .ok ⟨none, some [msg], true⟩
  | r => r

/-- Any result the `try` body returns normally is success-shaped or
failure-shaped, provided the external introspection executor returns
a well-formed invalid result when it is invalid. -/
theorem _execute_body_ok_shape {Doc : Type}
    (parse : String → Except Err Doc)
    (validate : Doc → List String)
    (docSelections : Doc → List AstSelection)
    (buildData : Doc → List FieldNode → Except Err V)
    (schema_query : Doc → Option Doc)
    (graphql_execute : Doc → ExecutionResult)
    (query : String) (r : ExecutionResult)
    (hsr : ∀ d, (graphql_execute d).invalid = true →
      (graphql_execute d).data = none ∧
        ∃ es, (graphql_execute d).errors = some es ∧ es ≠ [])
    (h : _execute_body parse validate docSelections buildData schema_query
      graphql_execute query = .ok r) :
    ((∃ v, r.data = some v) ∧ r.errors = none ∧ r.invalid = false) ∨
      (r.data = none ∧ (∃ es, r.errors = some es ∧ es ≠ []) ∧
        r.invalid = true) := by
  simp only [_execute_body] at h
  rcases hp : parse query with e | ast <;> rw [hp] at h
  · simp [Except.bind] at h
  simp only [Except.bind] at h
  rcases hv : validate ast with _ | ⟨e0, es0⟩ <;> rw [hv] at h
  case cons =>
    right
    obtain rfl : (⟨none, some (e0 :: es0), true⟩ : ExecutionResult) = r :=
      Except.ok.inj h
    exact ⟨rfl, ⟨e0 :: es0, rfl, by simp⟩, rfl⟩
  rcases hc : _collect_fields (docSelections ast) with e | collected <;>
    rw [hc] at h
  · simp [Except.bind] at h
  simp only [Except.bind] at h
  rcases hm : _merge_fields collected with e | fields <;> rw [hm] at h
  · simp [Except.bind] at h
  simp only [Except.bind] at h
  rcases hb : buildData ast fields with e | data <;> rw [hb] at h
  · simp [Except.bind] at h
  simp only [Except.bind] at h
  rcases hq : schema_query ast with _ | sq <;> rw [hq] at h
  · left
    obtain rfl : (⟨some data, none, false⟩ : ExecutionResult) = r :=
      Except.ok.inj h
    exact ⟨⟨data, rfl⟩, rfl, rfl⟩
  · have h' : (if (graphql_execute sq).invalid = true then
        Except.ok (graphql_execute sq)
      else Except.ok (ExecutionResult.mk (some (V.vobj (asObj data ++
        ((graphql_execute sq).data.map asObj).getD []))) none false)) =
        Except.ok r := h
    by_cases hi : (graphql_execute sq).invalid = true
    · rw [if_pos hi] at h'
      obtain rfl : graphql_execute sq = r := Except.ok.inj h'
      right
      obtain ⟨h1, h2⟩ := hsr sq hi
      exact ⟨h1, h2, hi⟩
    · rw [if_neg hi] at h'
      left
      obtain rfl : (⟨some (V.vobj (asObj data ++
          ((graphql_execute sq).data.map asObj).getD [])), none, false⟩ :
          ExecutionResult) = r := Except.ok.inj h'
      exact ⟨⟨_, rfl⟩, rfl, rfl⟩

/-- C9 counterexample: a document whose only selection carries the unknown
directive `@foo` makes `_execute` raise the plain
`Exception("Unknown directive: foo")` out of the `except GraphQLError`
guard: the caller gets an escaped exception, not a structured failure
result — even though validation passed and every collaborator succeeds. -/
theorem unknown_directive_escapes_execute :
    _execute (fun _ => Except.ok ()) (fun _ => [])
      (fun _ => [AstSelection.fld (FieldNode.mk "a" none [⟨"foo", none⟩] none)])
      (fun _ _ => .ok (V.vobj [])) (fun _ => none)
      (fun _ => ⟨none, none, false⟩) "{ a @foo }" =
      .error (.exception "Unknown directive: foo") := by
  simp only [_execute, _execute_body, _collect_fields]
  rw [_add_fields_cons]
  rfl

/-- C9 (amended): provided the external introspection executor returns a
well-formed invalid result when invalid, every result `_execute` actually
returns is either a success payload (data present, no errors, valid) or a
structured failure (no data, non-empty error list, invalid) — never a mixed
state; a `GraphQLError` raised anywhere in the body (e.g. a cardinality
violation) is caught and converted into such a structured failure; but any
other exception raised during resolution (an unknown directive, a field-merge
crash, a fetch-collaborator fault) propagates out of `_execute` unhandled
instead of surfacing as a structured failure, and `_execute` itself never
lets a `GraphQLError` escape. -/
theorem execute_error_contract {Doc : Type}
    (parse : String → Except Err Doc)
    (validate : Doc → List String)
    (docSelections : Doc → List AstSelection)
    (buildData : Doc → List FieldNode → Except Err V)
    (schema_query : Doc → Option Doc)
    (graphql_execute : Doc → ExecutionResult)
    (query : String)
    (hsr : ∀ d, (graphql_execute d).invalid = true →
      (graphql_execute d).data = none ∧
        ∃ es, (graphql_execute d).errors = some es ∧ es ≠ []) :
    (∀ r, _execute parse validate docSelections buildData schema_query
        graphql_execute query = .ok r →
      ((∃ v, r.data = some v) ∧ r.errors = none ∧ r.invalid = false) ∨
        (r.data = none ∧ (∃ es, r.errors = some es ∧ es ≠ []) ∧
          r.invalid = true)) ∧
    (∀ msg, _execute_body parse validate docSelections buildData schema_query
        graphql_execute query = .error (.graphqlError msg) →
      _execute parse validate docSelections buildData schema_query
        graphql_execute query = .ok ⟨none, some [msg], true⟩) ∧
    (∀ e, (∀ msg, e ≠ Err.graphqlError msg) →
      _execute_body parse validate docSelections buildData schema_query
        graphql_execute query = .error e →
      _execute parse validate docSelections buildData schema_query
        graphql_execute query = .error e) ∧
    (∀ msg, _execute parse validate docSelections buildData schema_query
        graphql_execute query ≠ .error (.graphqlError msg)) := by
  refine ⟨?_, ?_, ?_, ?_⟩
  · intro r hr
    simp only [_execute] at hr
    rcases hbody : _execute_body parse validate docSelections buildData
        schema_query graphql_execute query with e | b <;> rw [hbody] at hr
    · rcases e with msg | msg | _
      · obtain rfl : (⟨none, some [msg], true⟩ : ExecutionResult) = r :=
          Except.ok.inj hr
        exact Or.inr ⟨rfl, ⟨[msg], rfl, by simp⟩, rfl⟩
      · simp at hr
      · simp at hr
    · obtain rfl : b = r := Except.ok.inj hr
      exact _execute_body_ok_shape parse validate docSelections buildData
        schema_query graphql_execute query _ hsr hbody
  · intro msg h
    simp only [_execute]
    rw [h]
  · intro e hne h
    simp only [_execute]
    rw [h]
    rcases e with msg | msg | _
    · exact absurd rfl (hne msg)
    · rfl
    · rfl
  · intro msg hcontra
    simp only [_execute] at hcontra
    rcases hbody : _execute_body parse validate docSelections buildData
        schema_query graphql_execute query with e | b <;> rw [hbody] at hcontra
    · rcases e with m | m | _
      · simp at hcontra
      · simp at hcontra
      · simp at hcontra
    · simp at hcontra

/-- Witness for `execute_error_contract`: with an all-successful concrete
collaborator set (one plain field `a`, no schema query), `_execute` returns
a success-shaped result, and the contract instantiates to it. -/
theorem execute_error_contract_witness :
    (((∃ v, (ExecutionResult.mk (some (V.vobj [("a", V.prim S.null)])) none
        false).data = some v) ∧
      (ExecutionResult.mk (some (V.vobj [("a", V.prim S.null)])) none
        false).errors = none ∧
      (ExecutionResult.mk (some (V.vobj [("a", V.prim S.null)])) none
        false).invalid = false) ∨
      ((ExecutionResult.mk (some (V.vobj [("a", V.prim S.null)])) none
        false).data = none ∧
      (∃ es, (ExecutionResult.mk (some (V.vobj [("a", V.prim S.null)])) none
        false).errors = some es ∧ es ≠ []) ∧
      (ExecutionResult.mk (some (V.vobj [("a", V.prim S.null)])) none
        false).invalid = true)) :=
  (execute_error_contract (fun _ => Except.ok ()) (fun _ => [])
      (fun _ => [AstSelection.fld (FieldNode.mk "a" none [] none)])
      (fun _ _ => .ok (V.vobj [("a", V.prim S.null)])) (fun _ => none)
      (fun _ => ⟨none, none, false⟩) "{ a }"
      (fun _ h => by simp at h)).1
    (ExecutionResult.mk (some (V.vobj [("a", V.prim S.null)])) none false)
    (by
      simp only [_execute, _execute_body, _collect_fields]
      rw [_add_fields_cons, _add_fields_nil]
      rfl)

end GraphJoiner
